import Mathlib

/-
Verification development for the process-muxer core
(crate process-muxer-core, file src/muxer/mod.rs and submodules).

Shallow embedding conventions:
* `Pid` is the u32 process id (no arithmetic is performed on it, so `Nat`).
* `ExitStatus` carries no structure at this layer; modelled as `Int`.
* Strings (program paths, output lines) are `List Char`.
* `Rc<Cell<Option<ExitStatus>>>` cells are modelled as a heap
  `Nat → Option ExitStatus` indexed by a fresh cell id per spawn; the
  `Muxer` and every returned `ChildInfo` hold the id of the shared cell.
* OS behaviour (poll results, pipe bytes, waitpid results, pending
  signals) is supplied by per-step environments; everything the Rust
  code itself does is translated directly.
* Rust `Vec` push/pop operate on the vector's end; we store such vectors
  with the *head* of the Lean list as the vector's end (push = cons,
  pop = uncons), so `pending_events` and `wait_buffer` are reversed
  relative to their Rust printing order.
-/

namespace PMux

abbrev Str : Type := List Char

abbrev Pid : Type := Nat

abbrev ExitStatus : Type := Int

/-- Signal numbers as defined by libc on Linux (signal_hook::consts). -/
def SIGHUP : Nat := 1

def SIGINT : Nat := 2

def SIGTERM : Nat := 15

/-- FdTag from source/childout/mod.rs. -/
inductive FdTag where
  | Stderr
  | Stdout
deriving DecidableEq

/-- Public Signal enum from source/signal/mod.rs. -/
inductive Signal where
  | Hangup
  | Interrupt
  | Terminate
deriving DecidableEq

/-- SourceInstruction from source/mod.rs. -/
inductive SourceInstruction where
  | Reregister
  | Deregister
deriving DecidableEq

/-- EventStream from source/mod.rs. -/
inductive EventStream (T : Type) where
  | Emit (t : T)
  | Drained (i : SourceInstruction)
deriving DecidableEq

/-- Internal state of SignalSource (source/signal/mod.rs): `Waiting` or
`Draining(pending)`, the pending iterator modelled as the list of signal
numbers it will still yield. -/
inductive SignalState where
  | Waiting
  | Draining (pending : List Nat)
deriving DecidableEq

/-- The signal-number match inside `SignalSource::next`
(source/signal/mod.rs lines 77-82).  `none` models the `unreachable!`
arm. Note the source maps `SIGTERM` to `Interrupt`. -/
def mapSignal (signum : Nat) : Option Signal :=
  if signum = SIGHUP then some Signal.Hangup
  else if signum = SIGINT then some Signal.Interrupt
  else if signum = SIGTERM then some Signal.Interrupt
  else none

/-- The `State::Draining` arm of the loop in `SignalSource::next`:
yield the next pending signal, or reset to `Waiting` and report drained.
`none` models the `unreachable!` panic on an unexpected signal. -/
def SignalSource.nextDraining : List Nat → Option (SignalState × EventStream Signal)
  | [] => some (SignalState.Waiting, EventStream.Drained SourceInstruction.Reregister)
  | signum :: rest =>
    (mapSignal signum).map (fun sig => (SignalState.Draining rest, EventStream.Emit sig))

/-- `SignalSource::next` (source/signal/mod.rs lines 71-92).  In state
`Waiting` the source snapshots the currently pending signals
(`self.signals.pending()`, supplied here as `snapshot`) and transitions
to `Draining`; it then yields from the pending list. -/
def SignalSource.next (snapshot : List Nat) :
    SignalState → Option (SignalState × EventStream Signal)
  | SignalState.Waiting => SignalSource.nextDraining snapshot
  | SignalState.Draining xs => SignalSource.nextDraining xs

/-
Pipe model.  A captured child pipe is driven by a script of low-level
read results: each `chunk` is the byte run a successful `read` returns,
`wouldBlock` is a read returning EWOULDBLOCK, and exhaustion of the
script is end-of-file (read returning 0, which is permanent once the
writer has closed).  `read_line` below models
`BufRead::read_line`/`read_until(b'\n')` from the Rust standard library
over a `BufReader`: bytes are appended to the accumulator up to and
including the first newline; on `WouldBlock` the bytes read so far stay
appended (the UTF-8 guard of `append_to_string` keeps them); at EOF the
call returns `Ok(n)` where `n` counts only the bytes read by this call,
so a call that finds the pipe already closed returns `Ok(0)` even if the
accumulator still holds residual bytes from an earlier call.
-/

inductive RawRead where
  | chunk (s : Str)
  | wouldBlock
deriving DecidableEq

/-- State of a `BufReader<pipe::Receiver>`: leftover buffered bytes
(after a newline split) plus the future low-level reads. -/
structure PipeState where
  buffered : Str
  script : List RawRead
deriving DecidableEq

/-- Result of one `read_line` call, as matched by the pump
(muxer/mod.rs lines 242-288). -/
inductive ReadLineRes where
  | ok (n : Nat)
  | wouldBlock
  | interrupted
  | fatalErr
deriving DecidableEq

/-- Split a byte run at its first newline, the first component keeping
the newline: `splitNl "ab\ncd" = some ("ab\n", "cd")`. -/
def splitNl : Str → Option (Str × Str)
  | [] => none
  | c :: rest =>
    if c = '\n' then some ([c], rest)
    else (splitNl rest).map (fun pr => (c :: pr.1, pr.2))

/-- The read loop of `read_until` once the buffered bytes are consumed:
pull low-level reads from the script until a newline, EOF or
EWOULDBLOCK.  `n` counts the bytes already read by this call. -/
def readScript : List RawRead → Str → Nat → PipeState × Str × ReadLineRes
  | [], acc, n => (⟨[], []⟩, acc, ReadLineRes.ok n)
  | RawRead.wouldBlock :: rest, acc, _ => (⟨[], rest⟩, acc, ReadLineRes.wouldBlock)
  | RawRead.chunk s :: rest, acc, n =>
    match splitNl s with
    | some (pre, post) => (⟨post, rest⟩, acc ++ pre, ReadLineRes.ok (n + pre.length))
    | none => readScript rest (acc ++ s) (n + s.length)

/-- `fd.read_line(buf)` over the pipe model: first consume the
`BufReader`'s leftover bytes, then read from the pipe. -/
def read_line (p : PipeState) (acc : Str) : PipeState × Str × ReadLineRes :=
  match splitNl p.buffered with
  | some (pre, post) => (⟨post, p.script⟩, acc ++ pre, ReadLineRes.ok pre.length)
  | none => readScript p.script (acc ++ p.buffered) p.buffered.length

/-- ChildOut from source/childout/mod.rs: pid, program path, fd tag, the
line accumulator `buf`, and the buffered pipe reader `fd`. -/
structure ChildOut where
  pid : Pid
  prog_path : Str
  tag : FdTag
  buf : Str
  fd : PipeState
deriving DecidableEq

/-- `ChildOut::from_pipe`: empty accumulator, fresh reader over the
pipe's future bytes (the pipe is put into non-blocking mode, which the
script models by possibly yielding `wouldBlock`). -/
def ChildOut.from_pipe (pid : Pid) (prog_path : Str) (tag : FdTag)
    (script : List RawRead) : ChildOut :=
  { pid := pid, prog_path := prog_path, tag := tag, buf := [], fd := ⟨[], script⟩ }

/-- The per-child record the Muxer keeps (MuxerChild in muxer/mod.rs):
the owning `Child` handle is OS-side (its `try_wait` answers come from
the environment), so the record keeps the program path and the id of the
shared exit-status cell. -/
structure MuxerChild where
  prog_path : Str
  cell : Nat
deriving DecidableEq

/-- ChildInfo from muxer/mod.rs: the handle returned to the caller,
sharing the program path and the exit-status cell with the Muxer.
(`stdin` is carried in the Rust struct but never read by the core.) -/
structure ChildInfo where
  pid : Pid
  prog_path : Str
  cell : Nat
deriving DecidableEq

/-- The user-facing Event enum from muxer/mod.rs. -/
inductive Event where
  | ChildTerminated (pid : Pid) (prog_path : Str) (exit_status : ExitStatus)
  | ChildWrote (pid : Pid) (prog_path : Str) (tag : FdTag) (line : Str)
  | FdClosed (pid : Pid) (prog_path : Str) (tag : FdTag)
  | SignalReceived (signal : Signal)
deriving DecidableEq

/-- EventSource from muxer/mod.rs: the tagged slab entry.  The
ChildTerminationSource owns only an OS-side signal fd, so its variant
carries no data; the SignalSource carries its drain state. -/
inductive EventSource where
  | ReadableChild (c : ChildOut)
  | ChildTerminated
  | ReceivedSignal (s : SignalState)
deriving DecidableEq

/-- Pump State from muxer/mod.rs. -/
inductive MuxState where
  | Awaiting
  | DrainingChildOut (c : ChildOut)
  | DrainingChildTerminated
  | DrainingSignals (s : SignalState)
deriving DecidableEq

/-
Slab model (the `slab::Slab` dependency): a dense array of optional
entries.  `slabVacantKey` is the key `vacant_entry().key()` hands out:
an unoccupied slot (the crate reuses freed slots; which free slot is
chosen does not matter to any claim, only that it is not occupied, which
holds for the first-free-slot policy used here).  `slabRemoveAt` empties
a slot and returns what it held (`none` models the panic of
`Slab::remove` on a vacant key).
-/

def slabVacantKey {α : Type} : List (Option α) → Nat
  | [] => 0
  | none :: _ => 0
  | some _ :: rest => slabVacantKey rest + 1

def slabInsert {α : Type} : List (Option α) → α → List (Option α)
  | [], x => [some x]
  | none :: rest, x => some x :: rest
  | some y :: rest, x => some y :: slabInsert rest x

def slabRemoveAt {α : Type} : List (Option α) → Nat → Option α × List (Option α)
  | [], _ => (none, [])
  | x :: rest, 0 => (x, none :: rest)
  | x :: rest, i + 1 =>
    let r := slabRemoveAt rest i
    (r.1, x :: r.2)

def slabGet {α : Type} (l : List (Option α)) (i : Nat) : Option α :=
  (l.get? i).getD none

/-- Heap of shared exit-status cells (`Rc<Cell<Option<ExitStatus>>>`). -/
def CellHeap : Type := Nat → Option ExitStatus

def cellWrite (cells : CellHeap) (c : Nat) (v : ExitStatus) : CellHeap :=
  fun x => if x = c then some v else cells x

/-- `ChildInfo::exit_status`: read the shared cell through the handle. -/
def ChildInfo.exit_status (info : ChildInfo) (cells : CellHeap) : Option ExitStatus :=
  cells info.cell

/-- An entry of the termination `wait_buffer`:
`(Pid, Rc<PathBuf>, ExitStatus)`. -/
abbrev WEntry : Type := Pid × Str × ExitStatus

/-- Observable actions of one pump/spawn step, used to state trace
properties: poller invocations, events crossing the callback boundary,
poller registrations, cell writes and successful spawns. -/
inductive Action where
  | polled
  | emitted (e : Event)
  | registered (tok : Nat)
  | deregistered
  | wroteCell (cell : Nat) (v : ExitStatus)
  | spawnedChild (pid : Pid) (cell : Nat)
  | spawnFailed
deriving DecidableEq

/-- The Muxer state (muxer/mod.rs struct Muxer).  `poll` and `events`
are OS-side; `pending_events` and `wait_buffer` use the head-is-top Vec
convention described above.  `cells`/`nextCell` form the cell heap. -/
structure Muxer where
  children : List (Pid × MuxerChild)
  fds : List (Option EventSource)
  state : MuxState
  wait_buffer : List WEntry
  pending_events : List Nat
  cells : CellHeap
  nextCell : Nat

/-- The reap loop of `ChildTerminationSource::handle_event`
(termination/unix/mod.rs lines 50-57): for each child, a non-blocking
`try_wait` (answered by `os`); on an exit status, write the shared cell
and push `(pid, prog_path, status)` onto the buffer.  Also records the
cell writes as actions. -/
def reapChildren (os : Pid → Option ExitStatus) :
    List (Pid × MuxerChild) → CellHeap → List WEntry → List Action →
    CellHeap × List WEntry × List Action
  | [], cells, buffer, acts => (cells, buffer, acts)
  | (pid, mc) :: rest, cells, buffer, acts =>
    match os pid with
    | some st =>
      reapChildren os rest (cellWrite cells mc.cell st)
        ((pid, mc.prog_path, st) :: buffer) (acts ++ [Action.wroteCell mc.cell st])
    | none => reapChildren os rest cells buffer acts

/-- `BTreeMap::remove` on the association-list map. -/
def eraseKey (l : List (Pid × MuxerChild)) (p : Pid) : List (Pid × MuxerChild) :=
  l.filter (fun pc => pc.1 ≠ p)

/-- The removal loop of `handle_event` (termination/unix/mod.rs lines
59-61): remove every pid in the buffer from the children map. -/
def removeReaped (buffer : List WEntry) (children : List (Pid × MuxerChild)) :
    List (Pid × MuxerChild) :=
  buffer.foldl (fun cs e => eraseKey cs e.1) children

/-- Output of `handle_event`. -/
structure HEOut where
  children : List (Pid × MuxerChild)
  cells : CellHeap
  buffer : List WEntry
  acts : List Action
  instr : SourceInstruction

/-- `ChildTerminationSource::handle_event` (termination/unix/mod.rs
lines 44-65).  `pending` is `self.signals.pending().last().is_some()`:
whether any SIGCHLD is pending. -/
def ChildTerminationSource.handle_event (pending : Bool)
    (os : Pid → Option ExitStatus) (children : List (Pid × MuxerChild))
    (cells : CellHeap) (buffer : List WEntry) : HEOut :=
  if pending then
    let r := reapChildren os children cells buffer []
    { children := removeReaped r.2.1 children
      cells := r.1
      buffer := r.2.1
      acts := r.2.2
      instr := SourceInstruction.Reregister }
  else
    { children := children
      cells := cells
      buffer := buffer
      acts := []
      instr := SourceInstruction.Reregister }

/-- One result of `Poll::poll`: a batch of ready tokens, EINTR, or a
fatal error. -/
inductive PollRes where
  | ok (batch : List Nat)
  | interrupted
  | fatal
deriving DecidableEq

/-- The poll retry loop of pump (muxer/mod.rs lines 178-188): retry on
EINTR; `none` models the panic on any other error (and the case of a
poll that never returns). -/
def pollRetry : List PollRes → Option (List Nat)
  | [] => none
  | PollRes.ok batch :: _ => some batch
  | PollRes.interrupted :: rest => pollRetry rest
  | PollRes.fatal :: _ => none

/-- Environment of one pump loop iteration: the OS inputs it may consume
and the user callback. -/
structure PumpEnv (R : Type) where
  polls : List PollRes
  sigchld_pending : Bool
  os_exit : Pid → Option ExitStatus
  sig_pending : List Nat
  cb : Event → Option R

/-- Result of one pump loop iteration: continue looping, return to the
caller with a reduction, or die (the process aborts). -/
inductive StepOut (R : Type) where
  | cont (m : Muxer) (acts : List Action)
  | ret (m : Muxer) (r : R) (acts : List Action)
  | fatalStop (acts : List Action)

def StepOut.actsOf {R : Type} : StepOut R → List Action
  | StepOut.cont _ a => a
  | StepOut.ret _ _ a => a
  | StepOut.fatalStop a => a

/-- The `State::DrainingChildOut` arm of pump (muxer/mod.rs lines
239-289), factored over the result of the `read_line` call.  `fd09` and
`buf9` are the reader state and accumulator after the call. -/
def Muxer.drainChildOut {R : Type} (m : Muxer) (cb : Event → Option R)
    (c : ChildOut) (fd9 : PipeState) (buf9 : Str) : ReadLineRes → StepOut R
  | ReadLineRes.ok 0 =>
    -- Ok(0): the fd was closed; deregister it from the poller, emit
    -- FdClosed, drop the stream, return to Awaiting.
    let ev := Event.FdClosed c.pid c.prog_path c.tag
    match cb ev with
    | none => StepOut.cont { m with state := MuxState.Awaiting }
        [Action.deregistered, Action.emitted ev]
    | some r => StepOut.ret { m with state := MuxState.Awaiting } r
        [Action.deregistered, Action.emitted ev]
  | ReadLineRes.ok (_ + 1) =>
    -- Ok(n > 0): deliver the accumulated line, clear the accumulator,
    -- keep draining.
    let ev := Event.ChildWrote c.pid c.prog_path c.tag buf9
    let c9 : ChildOut := { c with fd := fd9, buf := [] }
    match cb ev with
    | none => StepOut.cont { m with state := MuxState.DrainingChildOut c9 }
        [Action.emitted ev]
    | some r => StepOut.ret { m with state := MuxState.DrainingChildOut c9 } r
        [Action.emitted ev]
  | ReadLineRes.interrupted =>
    -- EINTR: stay in the draining state; the read is retried.
    StepOut.cont
      { m with state := MuxState.DrainingChildOut { c with fd := fd9, buf := buf9 } } []
  | ReadLineRes.wouldBlock =>
    -- EWOULDBLOCK: re-register the stream under a fresh token and
    -- return to Awaiting.
    StepOut.cont
      { m with
        fds := slabInsert m.fds
          (EventSource.ReadableChild { c with fd := fd9, buf := buf9 })
        state := MuxState.Awaiting }
      [Action.registered (slabVacantKey m.fds)]
  | ReadLineRes.fatalErr => StepOut.fatalStop []

/-- One iteration of the pump loop (muxer/mod.rs lines 173-311). -/
def Muxer.step {R : Type} (m : Muxer) (env : PumpEnv R) : StepOut R :=
  match m.state with
  | MuxState.Awaiting =>
    match m.pending_events with
    | [] =>
      -- Readiness buffer empty: block in the poller (retrying EINTR),
      -- then copy the batch into the owned buffer.
      match pollRetry env.polls with
      | none => StepOut.fatalStop [Action.polled]
      | some batch =>
        StepOut.cont { m with pending_events := batch.reverse } [Action.polled]
    | tok :: rest =>
      -- Pop one readiness event and dispatch by token, removing the
      -- source from the slab for the duration of the drain.
      match slabRemoveAt m.fds tok with
      | (none, _) => StepOut.fatalStop []
      | (some src, fds9) =>
        match src with
        | EventSource.ChildTerminated =>
          let he := ChildTerminationSource.handle_event env.sigchld_pending
            env.os_exit m.children m.cells m.wait_buffer
          match he.instr with
          | SourceInstruction.Reregister =>
            StepOut.cont
              { m with
                children := he.children
                cells := he.cells
                wait_buffer := he.buffer
                pending_events := rest
                fds := slabInsert fds9 EventSource.ChildTerminated
                state := MuxState.DrainingChildTerminated }
              (he.acts ++ [Action.registered (slabVacantKey fds9)])
          | SourceInstruction.Deregister =>
            StepOut.cont
              { m with
                children := he.children
                cells := he.cells
                wait_buffer := he.buffer
                pending_events := rest
                fds := fds9 }
              (he.acts ++ [Action.deregistered])
        | EventSource.ReadableChild c =>
          StepOut.cont
            { m with
              pending_events := rest
              fds := fds9
              state := MuxState.DrainingChildOut c } []
        | EventSource.ReceivedSignal s =>
          StepOut.cont
            { m with
              pending_events := rest
              fds := fds9
              state := MuxState.DrainingSignals s } []
  | MuxState.DrainingChildTerminated =>
    match m.wait_buffer with
    | [] => StepOut.cont { m with state := MuxState.Awaiting } []
    | (pid, prog_path, exit_status) :: rest =>
      let ev := Event.ChildTerminated pid prog_path exit_status
      match env.cb ev with
      | none => StepOut.cont { m with wait_buffer := rest } [Action.emitted ev]
      | some r => StepOut.ret { m with wait_buffer := rest } r [Action.emitted ev]
  | MuxState.DrainingChildOut c =>
    let rl := read_line c.fd c.buf
    m.drainChildOut env.cb c rl.1 rl.2.1 rl.2.2
  | MuxState.DrainingSignals s =>
    match SignalSource.next env.sig_pending s with
    | none => StepOut.fatalStop []
    | some (s9, EventStream.Emit sig) =>
      let ev := Event.SignalReceived sig
      match env.cb ev with
      | none => StepOut.cont { m with state := MuxState.DrainingSignals s9 }
          [Action.emitted ev]
      | some r => StepOut.ret { m with state := MuxState.DrainingSignals s9 } r
          [Action.emitted ev]
    | some (s9, EventStream.Drained SourceInstruction.Reregister) =>
      StepOut.cont
        { m with
          fds := slabInsert m.fds (EventSource.ReceivedSignal s9)
          state := MuxState.Awaiting }
        [Action.registered (slabVacantKey m.fds)]
    | some (_, EventStream.Drained SourceInstruction.Deregister) =>
      StepOut.cont { m with state := MuxState.Awaiting } [Action.deregistered]

/-- Environment of one `spawn` call: what `cmd.spawn()` returns, which
stdio handles were piped, the pipes' future bytes, and whether each
poller registration succeeds. -/
structure SpawnEnv where
  spawn_pid : Option Pid
  prog_path : Str
  has_stdout : Bool
  has_stderr : Bool
  stdout_script : List RawRead
  stderr_script : List RawRead
  reg_stdout_ok : Bool
  reg_stderr_ok : Bool

/-- `BTreeMap::insert` on the association-list map (position of the new
entry is irrelevant to every claim; the old binding, if any, is
replaced). -/
def mapInsert (l : List (Pid × MuxerChild)) (p : Pid) (mc : MuxerChild) :
    List (Pid × MuxerChild) :=
  eraseKey l p ++ [(p, mc)]

/-- `Muxer::spawn` (muxer/mod.rs lines 107-146), translated step by
step: launch the child; build the `ChildInfo` with a fresh shared cell;
for each piped output, register a `ChildOut` with the poller under a
fresh token — a failed registration returns the error immediately (the
`?` operator), with no removal of anything registered so far and no
termination of the child; finally insert the MuxerChild record. -/
def Muxer.spawn (m : Muxer) (env : SpawnEnv) :
    Muxer × Option ChildInfo × List Action :=
  match env.spawn_pid with
  | none => (m, none, [Action.spawnFailed])
  | some pid =>
    let cell := m.nextCell
    let info : ChildInfo := { pid := pid, prog_path := env.prog_path, cell := cell }
    let m1 : Muxer := { m with nextCell := cell + 1 }
    -- stdout capture
    let so := ChildOut.from_pipe pid env.prog_path FdTag.Stdout env.stdout_script
    if env.has_stdout ∧ ¬env.reg_stdout_ok then
      (m1, none, [Action.spawnFailed])
    else
      let m2 : Muxer :=
        if env.has_stdout then
          { m1 with fds := slabInsert m1.fds (EventSource.ReadableChild so) }
        else m1
      let a2 : List Action :=
        if env.has_stdout then [Action.registered (slabVacantKey m1.fds)] else []
      -- stderr capture
      let se := ChildOut.from_pipe pid env.prog_path FdTag.Stderr env.stderr_script
      if env.has_stderr ∧ ¬env.reg_stderr_ok then
        (m2, none, a2 ++ [Action.spawnFailed])
      else
        let m3 : Muxer :=
          if env.has_stderr then
            { m2 with fds := slabInsert m2.fds (EventSource.ReadableChild se) }
          else m2
        let a3 : List Action :=
          a2 ++ (if env.has_stderr then [Action.registered (slabVacantKey m2.fds)] else [])
        let mc : MuxerChild := { prog_path := env.prog_path, cell := cell }
        ({ m3 with children := mapInsert m3.children pid mc }, some info,
          a3 ++ [Action.spawnedChild pid cell])

/-- One step of an execution: a pump loop iteration or a spawn call. -/
inductive MStep (R : Type) where
  | pumpStep (env : PumpEnv R)
  | spawnStep (env : SpawnEnv)

/-- Run an execution from a state and accumulated action trace.  A
`fatalStop` is a panic: the run ends there. -/
def runFrom {R : Type} : Muxer → List Action → List (MStep R) → Muxer × List Action
  | m, A, [] => (m, A)
  | m, A, MStep.pumpStep env :: rest =>
    match m.step env with
    | StepOut.cont m9 acts => runFrom m9 (A ++ acts) rest
    | StepOut.ret m9 _ acts => runFrom m9 (A ++ acts) rest
    | StepOut.fatalStop acts => (m, A ++ acts)
  | m, A, MStep.spawnStep env :: rest =>
    let r := m.spawn env
    runFrom r.1 (A ++ r.2.2) rest

/-- `Muxer::new` (muxer/mod.rs lines 82-101) with the `signals` feature
active: empty maps and buffers, the ChildTerminationSource registered at
token 0 and the SignalSource at token 1, state Awaiting. -/
def initMuxer : Muxer :=
  { children := []
    state := MuxState.Awaiting
    wait_buffer := []
    pending_events := []
    cells := fun _ => none
    nextCell := 0
    fds := [some EventSource.ChildTerminated,
            some (EventSource.ReceivedSignal SignalState.Waiting)] }

/-- Run an execution from a fresh Muxer. -/
def runMuxer {R : Type} (T : List (MStep R)) : Muxer × List Action :=
  runFrom initMuxer [] T

/-- `Muxer::pids` returns the keys of the children map. -/
def Muxer.pids (m : Muxer) : List Pid :=
  m.children.map Prod.fst

/-- The pids an execution's spawn calls hand out (successfully launched
children). -/
def spawnPids {R : Type} : List (MStep R) → List Pid
  | [] => []
  | MStep.pumpStep _ :: rest => spawnPids rest
  | MStep.spawnStep env :: rest =>
    match env.spawn_pid with
    | some p => p :: spawnPids rest
    | none => spawnPids rest

/-
Trace-counting functions used to state the invariants of §3/§8 of the
specification.
-/

def isSpawnOf (p : Pid) : Action → Bool
  | Action.spawnedChild q _ => q == p
  | _ => false

def isTermEmitOf (p : Pid) : Action → Bool
  | Action.emitted (Event.ChildTerminated q _ _) => q == p
  | _ => false

/-- Number of successful spawns of pid `p` recorded in a trace. -/
def spawnedFor (p : Pid) (A : List Action) : Nat := A.countP (isSpawnOf p)

/-- Number of `ChildTerminated` events for pid `p` delivered to the user
callback in a trace. -/
def emitsFor (p : Pid) (A : List Action) : Nat := A.countP (isTermEmitOf p)

/-- Number of entries for pid `p` in the children map. -/
def childFor (p : Pid) (l : List (Pid × MuxerChild)) : Nat :=
  l.countP (fun pc => pc.1 == p)

/-- Number of entries for pid `p` in the termination wait buffer. -/
def bufFor (p : Pid) (l : List WEntry) : Nat :=
  l.countP (fun e => e.1 == p)

/-- The exit-status cells a trace has written. -/
def writtenCells (A : List Action) : List Nat :=
  A.filterMap (fun a =>
    match a with
    | Action.wroteCell c _ => some c
    | _ => none)

/-
Concrete environments and traces for witnesses and counterexamples.
-/

def progA : Str := ['a']

def cbNone : Event → Option Unit := fun _ => none

def cbStop : Event → Option Unit := fun _ => some ()

def osNone : Pid → Option ExitStatus := fun _ => none

def osAll : Pid → Option ExitStatus := fun _ => some 0

/-- A pump iteration whose poll returns the given readiness batch. -/
def envPoll (batch : List Nat) : PumpEnv Unit :=
  { polls := [PollRes.ok batch]
    sigchld_pending := false
    os_exit := osNone
    sig_pending := []
    cb := cbNone }

/-- A pump iteration with a pending SIGCHLD and every child exited 0. -/
def envReap : PumpEnv Unit :=
  { polls := []
    sigchld_pending := true
    os_exit := osAll
    sig_pending := []
    cb := cbNone }

/-- A pump iteration that only runs the callback. -/
def envCb (cb : Event → Option Unit) : PumpEnv Unit :=
  { polls := []
    sigchld_pending := false
    os_exit := osNone
    sig_pending := []
    cb := cb }

/-- A spawn with no captured stdio (like `Muxer::control`). -/
def spawnNoPipe (p : Pid) : SpawnEnv :=
  { spawn_pid := some p
    prog_path := progA
    has_stdout := false
    has_stderr := false
    stdout_script := []
    stderr_script := []
    reg_stdout_ok := true
    reg_stderr_ok := true }

/-- Trace for the C4 counterexample: spawn pids 1 and 2, both exit, one
SIGCHLD dispatch reaps both, and the callback stops the pump after the
first `ChildTerminated` event. -/
def traceTwoReaped : List (MStep Unit) :=
  [MStep.spawnStep (spawnNoPipe 1), MStep.spawnStep (spawnNoPipe 2),
   MStep.pumpStep (envPoll [0]), MStep.pumpStep envReap,
   MStep.pumpStep (envCb cbStop)]

/-- Recognize a `ChildWrote` delivery in a trace. -/
def isWroteEmit : Action → Bool
  | Action.emitted (Event.ChildWrote _ _ _ _) => true
  | _ => false

/-- The C5 scenario's pipe bytes: the child writes `res` with no
trailing newline; the pump's read then hits EWOULDBLOCK; afterwards the
child closes the pipe (end of script). -/
def residScript : List RawRead := [RawRead.chunk ['r', 'e', 's'], RawRead.wouldBlock]

/-- Spawn of pid 7 with stdout captured over `residScript`. -/
def spawnStdoutResid : SpawnEnv :=
  { spawn_pid := some 7
    prog_path := progA
    has_stdout := true
    has_stderr := false
    stdout_script := residScript
    stderr_script := []
    reg_stdout_ok := true
    reg_stderr_ok := true }

/-- Trace for the C5 scenario: spawn; readiness on the stdout token (2);
drain hits EWOULDBLOCK after accumulating `res` (stream re-registered
under token 2); readiness again once the pipe has closed; the next
read_line returns Ok(0). -/
def traceResidual : List (MStep Unit) :=
  [MStep.spawnStep spawnStdoutResid,
   MStep.pumpStep (envPoll [2]), MStep.pumpStep (envCb cbNone),
   MStep.pumpStep (envCb cbNone),
   MStep.pumpStep (envPoll [2]), MStep.pumpStep (envCb cbNone),
   MStep.pumpStep (envCb cbNone)]

/-- Total number of bytes a pipe script delivers. -/
def scriptBytes : List RawRead → Nat
  | [] => 0
  | RawRead.chunk s :: rest => s.length + scriptBytes rest
  | RawRead.wouldBlock :: rest => scriptBytes rest

/-- The C6 scenario: `cmd.spawn()` succeeds (pid 7), stdout and stderr
are both piped, registering stdout with the poller succeeds, registering
stderr fails. -/
def spawnStderrRegFails : SpawnEnv :=
  { spawn_pid := some 7
    prog_path := progA
    has_stdout := true
    has_stderr := true
    stdout_script := []
    stderr_script := []
    reg_stdout_ok := true
    reg_stderr_ok := false }

/-
Characterizations of the reap loop, used in the invariant proofs: the
entries it pushes, the cell writes it performs and the actions it
records, all as functions of the children it scanned.
-/

/-- The `(pid, prog_path, status)` entries the reap loop pushes, in
children order. -/
def reapEntries (os : Pid → Option ExitStatus) (l : List (Pid × MuxerChild)) :
    List WEntry :=
  l.filterMap (fun pc => (os pc.1).map (fun st => (pc.1, pc.2.prog_path, st)))

/-- The `(cell, status)` writes the reap loop performs, in children
order. -/
def reapWrites (os : Pid → Option ExitStatus) (l : List (Pid × MuxerChild)) :
    List (Nat × ExitStatus) :=
  l.filterMap (fun pc => (os pc.1).map (fun st => (pc.2.cell, st)))

/-- Apply a list of cell writes in order. -/
def applyWrites (cells : CellHeap) (ws : List (Nat × ExitStatus)) : CellHeap :=
  ws.foldl (fun f cv => cellWrite f cv.1 cv.2) cells

/-- A stream about to hit EWOULDBLOCK, for the C9 witness. -/
def cWB : ChildOut := ChildOut.from_pipe 3 progA FdTag.Stdout [RawRead.wouldBlock]

/-- Witness trace: spawn pid 5 (no pipes), reap it after a SIGCHLD, then
drain the termination buffer to empty. -/
def traceOneReaped : List (MStep Unit) :=
  [MStep.spawnStep (spawnNoPipe 5), MStep.pumpStep (envPoll [0]),
   MStep.pumpStep envReap, MStep.pumpStep (envCb cbNone),
   MStep.pumpStep (envCb cbNone)]

/-- The `ChildInfo` the spawn of `traceOneReaped` returns. -/
def infoFive : ChildInfo := { pid := 5, prog_path := progA, cell := 0 }

/-- The execution invariant maintained by every pump iteration and every
spawn call (relative to the action trace `A`): the wait buffer is empty
outside `DrainingChildTerminated`; children keys and cell ids are
duplicate-free; live children's cells are fresh, unwritten and were
handed out by a recorded spawn; pids are conserved between the children
map, the wait buffer and the delivered `ChildTerminated` events;
buffered and delivered terminations have their status already written to
the cell of the corresponding spawn; recorded cell writes persist; and
no cell is ever written twice. -/
structure Inv (m : Muxer) (A : List Action) : Prop where
  buf_state : m.state ≠ MuxState.DrainingChildTerminated → m.wait_buffer = []
  keys_nodup : (m.children.map Prod.fst).Nodup
  cells_nodup : (m.children.map (fun pc => pc.2.cell)).Nodup
  cell_fresh : ∀ pc ∈ m.children, pc.2.cell < m.nextCell
  cell_unset : ∀ pc ∈ m.children, m.cells pc.2.cell = none
  child_spawned : ∀ pc ∈ m.children, Action.spawnedChild pc.1 pc.2.cell ∈ A
  conserve : ∀ p, spawnedFor p A =
    childFor p m.children + bufFor p m.wait_buffer + emitsFor p A
  buf_cell : ∀ e ∈ m.wait_buffer,
    ∃ c, Action.spawnedChild e.1 c ∈ A ∧ Action.wroteCell c e.2.2 ∈ A
  emit_cell : ∀ p path st,
    Action.emitted (Event.ChildTerminated p path st) ∈ A →
    ∃ c, Action.spawnedChild p c ∈ A ∧ Action.wroteCell c st ∈ A
  wrote_read : ∀ c v, Action.wroteCell c v ∈ A → m.cells c = some v ∧ c < m.nextCell
  read_wrote : ∀ c v, m.cells c = some v → Action.wroteCell c v ∈ A
  wrote_nodup : (writtenCells A).Nodup

/-- Actions that change none of the termination bookkeeping: no spawn
record, no `ChildTerminated` delivery, no cell write. -/
def NeutralActs (acts : List Action) : Prop :=
  ∀ a ∈ acts,
    (∀ p c, a ≠ Action.spawnedChild p c) ∧
    (∀ p path st, a ≠ Action.emitted (Event.ChildTerminated p path st)) ∧
    (∀ c v, a ≠ Action.wroteCell c v)

/-- Bool version of action neutrality. -/
def actionNeutral : Action → Bool
  | Action.spawnedChild _ _ => false
  | Action.emitted (Event.ChildTerminated _ _ _) => false
  | Action.wroteCell _ _ => false
  | _ => true

/-- The Muxer state after a step outcome (a `fatalStop` is a panic, the
state stays put as the run ends). -/
def stepMuxer {R : Type} (m : Muxer) : StepOut R → Muxer
  | StepOut.cont m9 _ => m9
  | StepOut.ret m9 _ _ => m9
  | StepOut.fatalStop _ => m

/-
Helper lemmas.
-/

/-- The key handed out by `vacant_entry` designates no current source. -/
theorem slabGet_vacant {α : Type} :
    ∀ l : List (Option α), slabGet l (slabVacantKey l) = none
  | [] => rfl
  | none :: _ => rfl
  | some _ :: rest => by
    simpa [slabGet, slabVacantKey] using slabGet_vacant rest

/-- Equational characterization of the reap loop. -/
theorem reapChildren_eq (os : Pid → Option ExitStatus) :
    ∀ (l : List (Pid × MuxerChild)) (cells : CellHeap) (buffer : List WEntry)
      (acts : List Action),
    reapChildren os l cells buffer acts =
      (applyWrites cells (reapWrites os l),
       (reapEntries os l).reverse ++ buffer,
       acts ++ (reapWrites os l).map (fun cv => Action.wroteCell cv.1 cv.2))
  | [], cells, buffer, acts => by
    simp [reapChildren, reapWrites, reapEntries, applyWrites]
  | (pid, mc) :: rest, cells, buffer, acts => by
    cases h : os pid with
    | none =>
      simp [reapChildren, h, reapChildren_eq os rest, reapWrites, reapEntries,
        List.filterMap_cons]
    | some st =>
      simp [reapChildren, h, reapChildren_eq os rest, reapWrites, reapEntries,
        List.filterMap_cons, applyWrites, List.append_assoc]

/-- `handle_event` with a pending SIGCHLD, in characterized form. -/
theorem handle_event_true (os : Pid → Option ExitStatus)
    (children : List (Pid × MuxerChild)) (cells : CellHeap) (buffer : List WEntry) :
    ChildTerminationSource.handle_event true os children cells buffer =
      { children := removeReaped ((reapEntries os children).reverse ++ buffer) children
        cells := applyWrites cells (reapWrites os children)
        buffer := (reapEntries os children).reverse ++ buffer
        acts := (reapWrites os children).map (fun cv => Action.wroteCell cv.1 cv.2)
        instr := SourceInstruction.Reregister } := by
  simp [ChildTerminationSource.handle_event, reapChildren_eq]

/-- `handle_event` always asks to be re-registered. -/
theorem handle_event_instr (pending : Bool) (os : Pid → Option ExitStatus)
    (children : List (Pid × MuxerChild)) (cells : CellHeap) (buffer : List WEntry) :
    (ChildTerminationSource.handle_event pending os children cells buffer).instr =
      SourceInstruction.Reregister := by
  cases pending <;> simp [ChildTerminationSource.handle_event, reapChildren_eq]

/-- The removal loop removes exactly the pids present in the buffer. -/
theorem removeReaped_eq :
    ∀ (buffer : List WEntry) (children : List (Pid × MuxerChild)),
    removeReaped buffer children =
      children.filter (fun pc => !(buffer.any (fun e => e.1 == pc.1)))
  | [], children => by simp [removeReaped]
  | e :: rest, children => by
    have ih := removeReaped_eq rest (eraseKey children e.1)
    simp only [removeReaped, List.foldl_cons] at ih ⊢
    rw [ih]
    simp only [eraseKey, List.filter_filter, List.any_cons]
    apply List.filter_congr
    intro pc _
    by_cases h : pc.1 = e.1
    · simp [h]
    · have h2 : ¬ e.1 = pc.1 := fun hh => h hh.symm
      simp [h, h2, beq_iff_eq]

/-- C1: the spec's table demands SIGHUP to Hangup, SIGINT to Interrupt
and SIGTERM to Terminate, with `next()` returning `Emit(Terminate)` for
every pending SIGTERM.  The source instead maps SIGTERM to `Interrupt`
(source/signal/mod.rs line 80): with a pending SIGTERM, `next()` from
state `Waiting` returns `Emit(Interrupt)`, and `Interrupt` is not
`Terminate`.  The SIGHUP and SIGINT rows of the table do hold. -/
theorem C1_sigterm_emits_interrupt :
    SignalSource.next [SIGTERM] SignalState.Waiting =
      some (SignalState.Draining [], EventStream.Emit Signal.Interrupt) ∧
    Signal.Interrupt ≠ Signal.Terminate ∧
    mapSignal SIGTERM = some Signal.Interrupt ∧
    mapSignal SIGHUP = some Signal.Hangup ∧
    mapSignal SIGINT = some Signal.Interrupt := by
  decide

/-- C5: the claim says residual bytes accumulated without a trailing
newline are delivered as a final `ChildWrote` before `FdClosed`, even
when a `WouldBlock` intervened between reading the incomplete bytes and
observing end-of-stream.  In the execution `traceResidual` the child
writes 3 bytes (no newline), the pump's `read_line` accumulates them and
then hits EWOULDBLOCK, and the pipe closes before the next readiness:
the next `read_line` returns `Ok(0)` (it read no new bytes), and the
pump's `Ok(0)` arm emits `FdClosed` and drops the stream together with
its non-empty accumulator — no `ChildWrote` is ever delivered. -/
theorem C5_residual_bytes_lost :
    Action.emitted (Event.FdClosed 7 progA FdTag.Stdout) ∈ (runMuxer traceResidual).2 ∧
    (runMuxer traceResidual).2.countP isWroteEmit = 0 ∧
    scriptBytes residScript = 3 := by
  decide

/-- C6: the claim says a spawn failure after the child was launched
releases every resource created so far, terminates the child cleanly
and inserts no ChildRecord.  In the `spawnStderrRegFails` scenario the
stderr registration fails after stdout was already registered: the error
is surfaced (`none`) and no ChildRecord is inserted, but the stdout
stream of pid 7 is left registered in the slab at token 2 — and
`Muxer::spawn` contains no code that terminates the launched child. -/
theorem C6_spawn_failure_leaks_stdout :
    (initMuxer.spawn spawnStderrRegFails).2.1 = none ∧
    slabGet (initMuxer.spawn spawnStderrRegFails).1.fds 2 =
      some (EventSource.ReadableChild (ChildOut.from_pipe 7 progA FdTag.Stdout [])) ∧
    (initMuxer.spawn spawnStderrRegFails).1.children = [] := by
  decide

/-- C4 counterexample: in the execution `traceTwoReaped`, pid 1 was
spawned, no `ChildTerminated` event has been emitted for it, and yet
`pids()` does not contain it (its termination sits in the wait buffer
when the callback's reduction returns the pump to its caller). -/
theorem C4_counterexample_buffered_pid :
    spawnedFor 1 (runMuxer traceTwoReaped).2 = 1 ∧
    emitsFor 1 (runMuxer traceTwoReaped).2 = 0 ∧
    ¬ 1 ∈ Muxer.pids (runMuxer traceTwoReaped).1 ∧
    bufFor 1 (runMuxer traceTwoReaped).1.wait_buffer = 1 := by
  decide

/-- C9: a `WouldBlock` from `read_line` while draining a child stream is
treated as a non-error: the pump re-registers the stream under the
slab's vacant key (which, by `slabGet_vacant`, designates no currently
registered source), transitions back to `Awaiting`, and neither emits an
event nor returns nor dies — the step is exactly a `cont` carrying the
single `registered` action. -/
theorem C9_wouldblock_reregisters (R : Type) (m : Muxer) (env : PumpEnv R)
    (c : ChildOut) (fd9 : PipeState) (b9 : Str)
    (h : read_line c.fd c.buf = (fd9, b9, ReadLineRes.wouldBlock)) :
    Muxer.step { m with state := MuxState.DrainingChildOut c } env =
      StepOut.cont
        { m with
          fds := slabInsert m.fds
            (EventSource.ReadableChild { c with fd := fd9, buf := b9 })
          state := MuxState.Awaiting }
        [Action.registered (slabVacantKey m.fds)] ∧
    slabGet m.fds (slabVacantKey m.fds) = none := by
  constructor
  · simp [Muxer.step, h, Muxer.drainChildOut]
  · exact slabGet_vacant m.fds

/-- Witness for C9 at a concrete stream whose next read would block. -/
theorem C9_witness :
    Muxer.step { initMuxer with state := MuxState.DrainingChildOut cWB } (envCb cbNone) =
      StepOut.cont
        { initMuxer with
          fds := slabInsert initMuxer.fds
            (EventSource.ReadableChild { cWB with fd := ⟨[], []⟩, buf := [] })
          state := MuxState.Awaiting }
        [Action.registered (slabVacantKey initMuxer.fds)] ∧
    slabGet initMuxer.fds (slabVacantKey initMuxer.fds) = none :=
  C9_wouldblock_reregisters Unit initMuxer (envCb cbNone) cWB ⟨[], []⟩ [] (by decide)

/-- C7: an EINTR is never observable by the caller of pump.  First, the
poll retry loop absorbs any `Interrupted` poll result: prepending one to
the poll results changes nothing about the whole step.  Second, an
`Interrupted` result from a child-output read leaves the pump in
`DrainingChildOut` of the very same stream, emitting no event, returning
nothing and recording no action, so the read is simply retried on the
next loop iteration. -/
theorem C7_eintr_never_observable (R : Type) (ps : List PollRes) (m : Muxer)
    (env : PumpEnv R) (cb : Event → Option R) (c : ChildOut) :
    pollRetry (PollRes.interrupted :: ps) = pollRetry ps ∧
    m.step { env with polls := PollRes.interrupted :: ps } =
      m.step { env with polls := ps } ∧
    m.drainChildOut cb c c.fd c.buf ReadLineRes.interrupted =
      StepOut.cont { m with state := MuxState.DrainingChildOut c } [] := by
  refine ⟨rfl, ?_, rfl⟩
  obtain ⟨ch, fds, st, wb, pe, cells, nc⟩ := m
  cases st <;> rfl

/-- C8: the blocking poll is invoked in a pump iteration exactly when
the state is `Awaiting` and the internal buffer of pending readiness
notifications is empty; in particular no `Draining*` state ever reaches
the poller, so buffered work is always drained before polling resumes. -/
theorem C8_poll_only_when_awaiting (R : Type) (m : Muxer) (env : PumpEnv R) :
    Action.polled ∈ (m.step env).actsOf ↔
      (m.state = MuxState.Awaiting ∧ m.pending_events = []) := by
  obtain ⟨ch, fds, st, wb, pe, cells, nc⟩ := m
  cases st with
  | Awaiting =>
    cases pe with
    | nil =>
      cases h : pollRetry env.polls <;> simp [Muxer.step, h, StepOut.actsOf]
    | cons tok rest =>
      rcases hsr : slabRemoveAt fds tok with ⟨osrc, fds9⟩
      cases osrc with
      | none => simp [Muxer.step, hsr, StepOut.actsOf]
      | some src =>
        cases src with
        | ChildTerminated =>
          cases hp : env.sigchld_pending with
          | false =>
            simp [Muxer.step, hsr, hp, StepOut.actsOf,
              ChildTerminationSource.handle_event]
          | true =>
            simp [Muxer.step, hsr, hp, StepOut.actsOf, handle_event_true]
        | ReadableChild c => simp [Muxer.step, hsr, StepOut.actsOf]
        | ReceivedSignal s => simp [Muxer.step, hsr, StepOut.actsOf]
  | DrainingChildOut c =>
    rcases hrl : read_line c.fd c.buf with ⟨fd9, rest⟩
    rcases rest with ⟨b9, res⟩
    cases res with
    | ok n =>
      cases n with
      | zero =>
        cases hcb : env.cb (Event.FdClosed c.pid c.prog_path c.tag) <;>
          simp [Muxer.step, hrl, Muxer.drainChildOut, hcb, StepOut.actsOf]
      | succ k =>
        cases hcb : env.cb (Event.ChildWrote c.pid c.prog_path c.tag b9) <;>
          simp [Muxer.step, hrl, Muxer.drainChildOut, hcb, StepOut.actsOf]
    | wouldBlock => simp [Muxer.step, hrl, Muxer.drainChildOut, StepOut.actsOf]
    | interrupted => simp [Muxer.step, hrl, Muxer.drainChildOut, StepOut.actsOf]
    | fatalErr => simp [Muxer.step, hrl, Muxer.drainChildOut, StepOut.actsOf]
  | DrainingChildTerminated =>
    cases wb with
    | nil => simp [Muxer.step, StepOut.actsOf]
    | cons e rest =>
      rcases e with ⟨pid, path, st0⟩
      cases hcb : env.cb (Event.ChildTerminated pid path st0) <;>
        simp [Muxer.step, hcb, StepOut.actsOf]
  | DrainingSignals s =>
    rcases hsn : SignalSource.next env.sig_pending s with _ | ⟨s9, es⟩
    · simp [Muxer.step, hsn, StepOut.actsOf]
    · cases es with
      | Emit sig =>
        cases hcb : env.cb (Event.SignalReceived sig) <;>
          simp [Muxer.step, hsn, hcb, StepOut.actsOf]
      | Drained i =>
        cases i <;> simp [Muxer.step, hsn, StepOut.actsOf]

/-
Counting lemmas.
-/

theorem spawnedFor_append (p : Pid) (A B : List Action) :
    spawnedFor p (A ++ B) = spawnedFor p A + spawnedFor p B :=
  List.countP_append _ _ _

theorem emitsFor_append (p : Pid) (A B : List Action) :
    emitsFor p (A ++ B) = emitsFor p A + emitsFor p B :=
  List.countP_append _ _ _

theorem writtenCells_append (A B : List Action) :
    writtenCells (A ++ B) = writtenCells A ++ writtenCells B :=
  List.filterMap_append _ _ _

theorem mem_writtenCells (c : Nat) (A : List Action) :
    c ∈ writtenCells A ↔ ∃ v, Action.wroteCell c v ∈ A := by
  simp only [writtenCells, List.mem_filterMap]
  constructor
  · rintro ⟨a, ha, hc⟩
    cases a <;> simp_all
    exact ⟨_, ha⟩
  · rintro ⟨v, hv⟩
    exact ⟨Action.wroteCell c v, hv, rfl⟩

/-- Pointwise-equal predicates count equally. -/
theorem countP_ext {α : Type} (p q : α → Bool) :
    ∀ l : List α, (∀ a ∈ l, p a = q a) → l.countP p = l.countP q
  | [], _ => rfl
  | a :: l, h => by
    have ih := countP_ext p q l (fun b hb => h b (List.mem_cons_of_mem a hb))
    simp [List.countP_cons, ih, h a (List.mem_cons_self a l)]

/-- Split a count along a second predicate. -/
theorem countP_split {α : Type} (p q : α → Bool) :
    ∀ l : List α,
    l.countP p = l.countP (fun a => p a && q a) + l.countP (fun a => p a && !q a)
  | [] => rfl
  | a :: l => by
    have ih := countP_split p q l
    cases hp : p a <;> cases hq : q a <;>
      simp [List.countP_cons, hp, hq, ih] <;> omega

theorem spawnedFor_zero_of_neutral (p : Pid) (B : List Action) (hB : NeutralActs B) :
    spawnedFor p B = 0 := by
  apply List.countP_eq_zero.mpr
  intro a ha
  rcases hB a ha with ⟨h1, _, _⟩
  cases a with
  | spawnedChild q c => exact absurd rfl (h1 q c)
  | _ => simp [isSpawnOf]

theorem emitsFor_zero_of_neutral (p : Pid) (B : List Action) (hB : NeutralActs B) :
    emitsFor p B = 0 := by
  apply List.countP_eq_zero.mpr
  intro a ha
  rcases hB a ha with ⟨_, h2, _⟩
  cases a with
  | emitted e =>
    cases e with
    | ChildTerminated q path st => exact absurd rfl (h2 q path st)
    | _ => simp [isTermEmitOf]
  | _ => simp [isTermEmitOf]

theorem writtenCells_nil_of_neutral (B : List Action) (hB : NeutralActs B) :
    writtenCells B = [] := by
  simp only [writtenCells]
  rw [List.filterMap_eq_nil_iff]
  intro a ha
  rcases hB a ha with ⟨_, _, h3⟩
  cases a with
  | wroteCell c v => exact absurd rfl (h3 c v)
  | _ => rfl

theorem spawnedFor_neutral (p : Pid) (A B : List Action) (hB : NeutralActs B) :
    spawnedFor p (A ++ B) = spawnedFor p A := by
  rw [spawnedFor_append, spawnedFor_zero_of_neutral p B hB, Nat.add_zero]

theorem emitsFor_neutral (p : Pid) (A B : List Action) (hB : NeutralActs B) :
    emitsFor p (A ++ B) = emitsFor p A := by
  rw [emitsFor_append, emitsFor_zero_of_neutral p B hB, Nat.add_zero]

theorem writtenCells_neutral (A B : List Action) (hB : NeutralActs B) :
    writtenCells (A ++ B) = writtenCells A := by
  rw [writtenCells_append, writtenCells_nil_of_neutral B hB, List.append_nil]

/-
Cell-heap lemmas.
-/

theorem applyWrites_notin :
    ∀ (ws : List (Nat × ExitStatus)) (cells : CellHeap) (c : Nat),
    ¬ c ∈ ws.map Prod.fst → applyWrites cells ws c = cells c
  | [], _, _, _ => rfl
  | w :: ws, cells, c, h => by
    have h1 : ¬ c ∈ ws.map Prod.fst := fun hc => h (by simp [hc])
    have h2 : ¬ c = w.1 := fun hc => h (by simp [hc])
    have ih := applyWrites_notin ws (cellWrite cells w.1 w.2) c h1
    show applyWrites (cellWrite cells w.1 w.2) ws c = cells c
    rw [ih]
    simp [cellWrite, h2]

theorem applyWrites_mem :
    ∀ (ws : List (Nat × ExitStatus)) (cells : CellHeap) (c : Nat) (v : ExitStatus),
    (ws.map Prod.fst).Nodup → (c, v) ∈ ws → applyWrites cells ws c = some v
  | [], _, _, _, _, h => absurd h (List.not_mem_nil _)
  | w :: ws, cells, c, v, hn, h => by
    rcases List.mem_cons.mp h with heq | htail
    · have hcw : c = w.1 := by rw [← heq]
      have hnotin : ¬ c ∈ ws.map Prod.fst := by
        rw [hcw]
        exact (List.nodup_cons.mp hn).1
      show applyWrites (cellWrite cells w.1 w.2) ws c = some v
      rw [applyWrites_notin ws _ c hnotin, ← heq]
      simp [cellWrite]
    · exact applyWrites_mem ws (cellWrite cells w.1 w.2) c v (List.nodup_cons.mp hn).2 htail

theorem applyWrites_cases :
    ∀ (ws : List (Nat × ExitStatus)) (cells : CellHeap) (c : Nat) (v : ExitStatus),
    applyWrites cells ws c = some v → (c, v) ∈ ws ∨ cells c = some v
  | [], _, _, _, h => Or.inr h
  | w :: ws, cells, c, v, h => by
    have h9 : applyWrites (cellWrite cells w.1 w.2) ws c = some v := h
    rcases applyWrites_cases ws (cellWrite cells w.1 w.2) c v h9 with hm | hw
    · exact Or.inl (List.mem_cons_of_mem _ hm)
    · by_cases hc : c = w.1
      · left
        have hv : some w.2 = some v := by simpa [cellWrite, hc] using hw
        have hv2 : w.2 = v := Option.some.inj hv
        rw [hc, ← hv2]
        exact List.mem_cons_self _ _
      · right
        simpa [cellWrite, hc] using hw

/-
Reap-list lemmas.
-/

theorem mem_reapEntries (os : Pid → Option ExitStatus) (l : List (Pid × MuxerChild))
    (e : WEntry) :
    e ∈ reapEntries os l ↔
      ∃ pc ∈ l, os pc.1 = some e.2.2 ∧ e = (pc.1, pc.2.prog_path, e.2.2) := by
  simp only [reapEntries, List.mem_filterMap, Option.map_eq_some']
  constructor
  · rintro ⟨pc, hpc, st, hos, he⟩
    refine ⟨pc, hpc, ?_, ?_⟩
    · rw [hos, ← he]
    · rw [← he]
  · rintro ⟨pc, hpc, hos, he⟩
    exact ⟨pc, hpc, e.2.2, hos, he.symm⟩

theorem mem_reapWrites (os : Pid → Option ExitStatus) (l : List (Pid × MuxerChild))
    (c : Nat) (v : ExitStatus) :
    (c, v) ∈ reapWrites os l ↔ ∃ pc ∈ l, os pc.1 = some v ∧ pc.2.cell = c := by
  simp only [reapWrites, List.mem_filterMap, Option.map_eq_some']
  constructor
  · rintro ⟨pc, hpc, st, hos, he⟩
    have h1 : pc.2.cell = c := congrArg Prod.fst he
    have h2 : st = v := congrArg Prod.snd he
    exact ⟨pc, hpc, h2 ▸ hos, h1⟩
  · rintro ⟨pc, hpc, hos, he⟩
    exact ⟨pc, hpc, v, hos, by rw [he]⟩

theorem reapWrites_keys_sublist (os : Pid → Option ExitStatus) :
    ∀ l : List (Pid × MuxerChild),
    List.Sublist ((reapWrites os l).map Prod.fst) (l.map (fun pc => pc.2.cell))
  | [] => List.Sublist.refl _
  | pc :: l => by
    cases h : os pc.1 with
    | none =>
      simp only [reapWrites, List.filterMap_cons, h, Option.map_none', List.map_cons]
      exact List.Sublist.cons _ (reapWrites_keys_sublist os l)
    | some st =>
      simp only [reapWrites, List.filterMap_cons, h, Option.map_some', List.map_cons]
      exact List.Sublist.cons₂ _ (reapWrites_keys_sublist os l)

theorem countP_reapEntries (os : Pid → Option ExitStatus) (p : Pid) :
    ∀ l : List (Pid × MuxerChild),
    (reapEntries os l).countP (fun e => e.1 == p) =
      l.countP (fun pc => (pc.1 == p) && (os pc.1).isSome)
  | [] => rfl
  | pc :: l => by
    have ih := countP_reapEntries os p l
    simp only [reapEntries] at ih ⊢
    cases h : os pc.1 with
    | none =>
      simp [List.filterMap_cons, h, List.countP_cons, ih]
    | some st =>
      simp [List.filterMap_cons, h, List.countP_cons, ih]

/-- With duplicate-free keys, an entry pushed for some child matches a
given child's key exactly when that child itself was reaped. -/
theorem reaped_any_eq (os : Pid → Option ExitStatus) (l : List (Pid × MuxerChild))
    (hn : (l.map Prod.fst).Nodup) (pc : Pid × MuxerChild) (hm : pc ∈ l) :
    (reapEntries os l).any (fun e => e.1 == pc.1) = (os pc.1).isSome := by
  cases hos : os pc.1 with
  | some st =>
    have hmem : (pc.1, pc.2.prog_path, st) ∈ reapEntries os l := by
      rw [mem_reapEntries]
      exact ⟨pc, hm, hos, rfl⟩
    simp only [Option.isSome_some]
    rw [List.any_eq_true]
    exact ⟨(pc.1, pc.2.prog_path, st), hmem, by simp⟩
  | none =>
    simp only [Option.isSome_none]
    rw [List.any_eq_false]
    intro e he
    rw [mem_reapEntries] at he
    rcases he with ⟨pc9, hpc9, hos9, he9⟩
    intro hkey
    have hk : e.1 = pc.1 := by simpa using hkey
    have he1 : e.1 = pc9.1 := congrArg Prod.fst he9
    have hpp : pc9 = pc := List.inj_on_of_nodup_map hn hpc9 hm (he1 ▸ hk)
    rw [hpp, hos] at hos9
    exact Option.noConfusion hos9

/-- With duplicate-free keys and an empty prior buffer, the removal loop
keeps exactly the children the reap loop did not reap. -/
theorem removeReaped_reap_eq (os : Pid → Option ExitStatus)
    (l : List (Pid × MuxerChild)) (hn : (l.map Prod.fst).Nodup) :
    removeReaped ((reapEntries os l).reverse ++ []) l =
      l.filter (fun pc => (os pc.1).isNone) := by
  rw [List.append_nil, removeReaped_eq]
  apply List.filter_congr
  intro pc hm
  rw [List.any_reverse, reaped_any_eq os l hn pc hm]
  cases os pc.1 <;> simp

/-
Invariant preservation.
-/

theorem Inv.mono_neutral {m : Muxer} {A : List Action} (hI : Inv m A)
    (B : List Action) (hB : NeutralActs B) : Inv m (A ++ B) where
  buf_state := hI.buf_state
  keys_nodup := hI.keys_nodup
  cells_nodup := hI.cells_nodup
  cell_fresh := hI.cell_fresh
  cell_unset := hI.cell_unset
  child_spawned := fun pc h =>
    List.mem_append.mpr (Or.inl (hI.child_spawned pc h))
  conserve := fun p => by
    rw [spawnedFor_neutral p A B hB, emitsFor_neutral p A B hB]
    exact hI.conserve p
  buf_cell := fun e he => by
    rcases hI.buf_cell e he with ⟨c, h1, h2⟩
    exact ⟨c, List.mem_append.mpr (Or.inl h1), List.mem_append.mpr (Or.inl h2)⟩
  emit_cell := fun p path st hmem => by
    rcases List.mem_append.mp hmem with hA | hBm
    · rcases hI.emit_cell p path st hA with ⟨c, h1, h2⟩
      exact ⟨c, List.mem_append.mpr (Or.inl h1), List.mem_append.mpr (Or.inl h2)⟩
    · exact absurd rfl ((hB _ hBm).2.1 p path st)
  wrote_read := fun c v hmem => by
    rcases List.mem_append.mp hmem with hA | hBm
    · exact hI.wrote_read c v hA
    · exact absurd rfl ((hB _ hBm).2.2 c v)
  read_wrote := fun c v h =>
    List.mem_append.mpr (Or.inl (hI.read_wrote c v h))
  wrote_nodup := by
    rw [writtenCells_neutral A B hB]
    exact hI.wrote_nodup

theorem Inv.update_state {m : Muxer} {A : List Action} (hI : Inv m A)
    (st9 : MuxState) (fds9 : List (Option EventSource)) (pe9 : List Nat)
    (hb : st9 ≠ MuxState.DrainingChildTerminated → m.wait_buffer = []) :
    Inv { m with state := st9, fds := fds9, pending_events := pe9 } A where
  buf_state := hb
  keys_nodup := hI.keys_nodup
  cells_nodup := hI.cells_nodup
  cell_fresh := hI.cell_fresh
  cell_unset := hI.cell_unset
  child_spawned := hI.child_spawned
  conserve := hI.conserve
  buf_cell := hI.buf_cell
  emit_cell := hI.emit_cell
  wrote_read := hI.wrote_read
  read_wrote := hI.read_wrote
  wrote_nodup := hI.wrote_nodup

theorem Inv.bump {m : Muxer} {A : List Action} (hI : Inv m A)
    (fds9 : List (Option EventSource)) (n : Nat) (hn : m.nextCell ≤ n)
    (B : List Action) (hB : NeutralActs B) :
    Inv { m with fds := fds9, nextCell := n } (A ++ B) := by
  have base := hI.mono_neutral B hB
  exact
    { buf_state := base.buf_state
      keys_nodup := base.keys_nodup
      cells_nodup := base.cells_nodup
      cell_fresh := fun pc h => Nat.lt_of_lt_of_le (base.cell_fresh pc h) hn
      cell_unset := base.cell_unset
      child_spawned := base.child_spawned
      conserve := base.conserve
      buf_cell := base.buf_cell
      emit_cell := base.emit_cell
      wrote_read := fun c v hm =>
        ⟨(base.wrote_read c v hm).1, Nat.lt_of_lt_of_le (base.wrote_read c v hm).2 hn⟩
      read_wrote := base.read_wrote
      wrote_nodup := base.wrote_nodup }

theorem initMuxer_inv : Inv initMuxer [] where
  buf_state := fun _ => rfl
  keys_nodup := List.nodup_nil
  cells_nodup := List.nodup_nil
  cell_fresh := fun pc h => absurd h (List.not_mem_nil pc)
  cell_unset := fun pc h => absurd h (List.not_mem_nil pc)
  child_spawned := fun pc h => absurd h (List.not_mem_nil pc)
  conserve := fun _ => rfl
  buf_cell := fun e he => absurd he (List.not_mem_nil e)
  emit_cell := fun _ _ _ h => absurd h (List.not_mem_nil _)
  wrote_read := fun _ _ h => absurd h (List.not_mem_nil _)
  read_wrote := fun _ _ h => Option.noConfusion h
  wrote_nodup := List.nodup_nil

/-- Popping one termination from the buffer and delivering its event
preserves the invariant. -/
theorem Inv.popTermination {m : Muxer} {A : List Action} (hI : Inv m A)
    (pid : Pid) (path : Str) (st0 : ExitStatus) (rest : List WEntry)
    (hwb : m.wait_buffer = (pid, path, st0) :: rest) :
    Inv { m with wait_buffer := rest }
      (A ++ [Action.emitted (Event.ChildTerminated pid path st0)]) := by
  have hmemA : ∀ a : Action,
      a ∈ A ++ [Action.emitted (Event.ChildTerminated pid path st0)] →
      a ∈ A ∨ a = Action.emitted (Event.ChildTerminated pid path st0) := by
    intro a ha
    rcases List.mem_append.mp ha with h | h
    · exact Or.inl h
    · exact Or.inr (List.mem_singleton.mp h)
  refine
    { buf_state := ?_
      keys_nodup := hI.keys_nodup
      cells_nodup := hI.cells_nodup
      cell_fresh := hI.cell_fresh
      cell_unset := hI.cell_unset
      child_spawned := fun pc h =>
        List.mem_append.mpr (Or.inl (hI.child_spawned pc h))
      conserve := ?_
      buf_cell := ?_
      emit_cell := ?_
      wrote_read := ?_
      read_wrote := fun c v h =>
        List.mem_append.mpr (Or.inl (hI.read_wrote c v h))
      wrote_nodup := ?_ }
  · intro hne
    have h0 := hI.buf_state hne
    rw [h0] at hwb
    exact absurd hwb (by simp)
  · intro p
    dsimp only
    have hc := hI.conserve p
    rw [hwb] at hc
    rw [spawnedFor_append, emitsFor_append]
    have h1 : spawnedFor p [Action.emitted (Event.ChildTerminated pid path st0)] = 0 := by
      simp [spawnedFor, List.countP_cons, isSpawnOf]
    rw [h1]
    by_cases hpq : pid = p
    · subst hpq
      have h2 : emitsFor pid [Action.emitted (Event.ChildTerminated pid path st0)] = 1 := by
        simp [emitsFor, List.countP_cons, isTermEmitOf]
      have h3 : bufFor pid ((pid, path, st0) :: rest) = bufFor pid rest + 1 := by
        simp [bufFor, List.countP_cons]
      rw [h2]
      rw [h3] at hc
      omega
    · have h2 : emitsFor p [Action.emitted (Event.ChildTerminated pid path st0)] = 0 := by
        simp [emitsFor, List.countP_cons, isTermEmitOf, beq_iff_eq, hpq]
      have h3 : bufFor p ((pid, path, st0) :: rest) = bufFor p rest := by
        simp [bufFor, List.countP_cons, beq_iff_eq, hpq]
      rw [h2]
      rw [h3] at hc
      omega
  · intro e he
    have hm : e ∈ m.wait_buffer := by
      rw [hwb]
      exact List.mem_cons_of_mem _ he
    rcases hI.buf_cell e hm with ⟨c, hc1, hc2⟩
    exact ⟨c, List.mem_append.mpr (Or.inl hc1), List.mem_append.mpr (Or.inl hc2)⟩
  · intro p path9 st9 hmem
    rcases hmemA _ hmem with hA | hEq
    · rcases hI.emit_cell p path9 st9 hA with ⟨c, h1, h2⟩
      exact ⟨c, List.mem_append.mpr (Or.inl h1), List.mem_append.mpr (Or.inl h2)⟩
    · have hhd : ((pid, path, st0) : WEntry) ∈ m.wait_buffer := by
        rw [hwb]
        exact List.mem_cons_self _ _
      rcases hI.buf_cell _ hhd with ⟨c, h1, h2⟩
      injection hEq with hev
      injection hev with hp hpath hst
      subst hp
      subst hst
      exact ⟨c, List.mem_append.mpr (Or.inl h1), List.mem_append.mpr (Or.inl h2)⟩
  · intro c v hmem
    rcases hmemA _ hmem with hA | hEq
    · exact hI.wrote_read c v hA
    · simp at hEq
  · rw [writtenCells_append]
    have : writtenCells [Action.emitted (Event.ChildTerminated pid path st0)] = [] := rfl
    rw [this, List.append_nil]
    exact hI.wrote_nodup

theorem spawnedFor_reapActs (p : Pid) (ws : List (Nat × ExitStatus)) (k : Nat) :
    spawnedFor p
      (ws.map (fun cv => Action.wroteCell cv.1 cv.2) ++ [Action.registered k]) = 0 := by
  apply List.countP_eq_zero.mpr
  intro a ha
  rcases List.mem_append.mp ha with hm | hs
  · rcases List.mem_map.mp hm with ⟨cv, _, hcv⟩
    rw [← hcv]
    simp [isSpawnOf]
  · rw [List.mem_singleton.mp hs]
    simp [isSpawnOf]

theorem emitsFor_reapActs (p : Pid) (ws : List (Nat × ExitStatus)) (k : Nat) :
    emitsFor p
      (ws.map (fun cv => Action.wroteCell cv.1 cv.2) ++ [Action.registered k]) = 0 := by
  apply List.countP_eq_zero.mpr
  intro a ha
  rcases List.mem_append.mp ha with hm | hs
  · rcases List.mem_map.mp hm with ⟨cv, _, hcv⟩
    rw [← hcv]
    simp [isTermEmitOf]
  · rw [List.mem_singleton.mp hs]
    simp [isTermEmitOf]

theorem writtenCells_reapActs (ws : List (Nat × ExitStatus)) (k : Nat) :
    writtenCells
      (ws.map (fun cv => Action.wroteCell cv.1 cv.2) ++ [Action.registered k]) =
      ws.map Prod.fst := by
  rw [writtenCells_append]
  have h1 : writtenCells (ws.map (fun cv => Action.wroteCell cv.1 cv.2)) =
      ws.map Prod.fst := by
    simp only [writtenCells, List.filterMap_map]
    have : ∀ cv : Nat × ExitStatus,
        ((fun a => match a with
          | Action.wroteCell c _ => some c
          | _ => none) ∘ (fun cv => Action.wroteCell cv.1 cv.2)) cv = some cv.1 :=
      fun _ => rfl
    rw [List.filterMap_congr (fun cv _ => this cv)]
    induction ws with
    | nil => rfl
    | cons w ws ih => simp [List.filterMap_cons, ih]
  have h2 : writtenCells [Action.registered k] = [] := rfl
  rw [h1, h2, List.append_nil]

/-- The SIGCHLD dispatch — reaping with an empty prior buffer, then
moving to `DrainingChildTerminated` — preserves the invariant. -/
theorem Inv.reap {m : Muxer} {A : List Action} (hI : Inv m A)
    (hwb : m.wait_buffer = []) (os : Pid → Option ExitStatus)
    (fds9 : List (Option EventSource)) (pe9 : List Nat) (k : Nat) :
    Inv
      { m with
        children := removeReaped ((reapEntries os m.children).reverse ++ []) m.children
        cells := applyWrites m.cells (reapWrites os m.children)
        wait_buffer := (reapEntries os m.children).reverse ++ []
        pending_events := pe9
        fds := fds9
        state := MuxState.DrainingChildTerminated }
      (A ++ ((reapWrites os m.children).map (fun cv => Action.wroteCell cv.1 cv.2) ++
        [Action.registered k])) := by
  have hchl := removeReaped_reap_eq os m.children hI.keys_nodup
  have hws_nodup : ((reapWrites os m.children).map Prod.fst).Nodup :=
    hI.cells_nodup.sublist (reapWrites_keys_sublist os m.children)
  -- cells in the write list belong to live children: they are unset and fresh
  have hkey_mem : ∀ c, c ∈ (reapWrites os m.children).map Prod.fst →
      ∃ pc ∈ m.children, (os pc.1).isSome ∧ pc.2.cell = c := by
    intro c hc
    rcases List.mem_map.mp hc with ⟨cv, hcv, hfst⟩
    rcases (mem_reapWrites os m.children cv.1 cv.2).mp hcv with ⟨pc, hpc, hos, hcell⟩
    exact ⟨pc, hpc, by rw [hos]; rfl, by rw [hcell, hfst]⟩
  have hkey_unset : ∀ c, c ∈ (reapWrites os m.children).map Prod.fst →
      m.cells c = none := by
    intro c hc
    rcases hkey_mem c hc with ⟨pc, hpc, _, hcell⟩
    rw [← hcell]
    exact hI.cell_unset pc hpc
  have hkey_fresh : ∀ c, c ∈ (reapWrites os m.children).map Prod.fst →
      c < m.nextCell := by
    intro c hc
    rcases hkey_mem c hc with ⟨pc, hpc, _, hcell⟩
    rw [← hcell]
    exact hI.cell_fresh pc hpc
  have hmemB : ∀ c v, (c, v) ∈ reapWrites os m.children →
      Action.wroteCell c v ∈
        (reapWrites os m.children).map (fun cv => Action.wroteCell cv.1 cv.2) := by
    intro c v hcv
    exact List.mem_map.mpr ⟨(c, v), hcv, rfl⟩
  refine
    { buf_state := fun h => absurd rfl h
      keys_nodup := ?_
      cells_nodup := ?_
      cell_fresh := ?_
      cell_unset := ?_
      child_spawned := ?_
      conserve := ?_
      buf_cell := ?_
      emit_cell := ?_
      wrote_read := ?_
      read_wrote := ?_
      wrote_nodup := ?_ }
  · show (((removeReaped ((reapEntries os m.children).reverse ++ []) m.children)).map
      Prod.fst).Nodup
    rw [hchl]
    exact hI.keys_nodup.sublist ((List.filter_sublist _).map Prod.fst)
  · show (((removeReaped ((reapEntries os m.children).reverse ++ []) m.children)).map
      (fun pc => pc.2.cell)).Nodup
    rw [hchl]
    exact hI.cells_nodup.sublist ((List.filter_sublist _).map _)
  · intro pc hpc
    dsimp only at hpc
    rw [hchl] at hpc
    exact hI.cell_fresh pc (List.mem_of_mem_filter hpc)
  · intro pc hpc
    dsimp only at hpc
    rw [hchl] at hpc
    have hmem := List.mem_of_mem_filter hpc
    have hnone := List.of_mem_filter hpc
    show applyWrites m.cells (reapWrites os m.children) pc.2.cell = none
    have hnotin : ¬ pc.2.cell ∈ (reapWrites os m.children).map Prod.fst := by
      intro hin
      rcases hkey_mem _ hin with ⟨pc9, hpc9, hsome, hcell⟩
      have : pc9 = pc := List.inj_on_of_nodup_map hI.cells_nodup hpc9 hmem hcell
      rw [this] at hsome
      rw [Option.isNone_iff_eq_none.mp hnone] at hsome
      exact Bool.noConfusion hsome
    rw [applyWrites_notin _ _ _ hnotin]
    exact hI.cell_unset pc hmem
  · intro pc hpc
    dsimp only at hpc
    rw [hchl] at hpc
    exact List.mem_append.mpr (Or.inl (hI.child_spawned pc (List.mem_of_mem_filter hpc)))
  · intro p
    dsimp only
    rw [spawnedFor_append, emitsFor_append,
      spawnedFor_reapActs, emitsFor_reapActs, Nat.add_zero, Nat.add_zero]
    have hbuf : bufFor p ((reapEntries os m.children).reverse ++ []) =
        m.children.countP (fun pc => (pc.1 == p) && (os pc.1).isSome) := by
      rw [List.append_nil]
      show ((reapEntries os m.children).reverse).countP (fun e => e.1 == p) = _
      rw [(List.reverse_perm (reapEntries os m.children)).countP_eq]
      exact countP_reapEntries os p m.children
    have hchild : childFor p
        (removeReaped ((reapEntries os m.children).reverse ++ []) m.children) =
        m.children.countP (fun pc => (pc.1 == p) && (os pc.1).isNone) := by
      rw [hchl]
      exact List.countP_filter ..
    rw [hbuf, hchild]
    have hsplit := countP_split (fun pc : Pid × MuxerChild => pc.1 == p)
      (fun pc => (os pc.1).isSome) m.children
    have hext : m.children.countP
        (fun pc => (pc.1 == p) && !(os pc.1).isSome) =
        m.children.countP (fun pc => (pc.1 == p) && (os pc.1).isNone) := by
      apply countP_ext
      intro pc _
      cases os pc.1 <;> simp
    have hc := hI.conserve p
    rw [hwb] at hc
    have hbuf0 : bufFor p ([] : List WEntry) = 0 := rfl
    rw [hbuf0] at hc
    have hcc : childFor p m.children =
        m.children.countP (fun pc => (pc.1 == p) && (os pc.1).isSome) +
        m.children.countP (fun pc => (pc.1 == p) && (os pc.1).isNone) := by
      have h0 : childFor p m.children = m.children.countP (fun pc => pc.1 == p) := rfl
      rw [h0, hsplit, hext]
    omega
  · intro e he
    dsimp only at he
    rw [List.append_nil, List.mem_reverse] at he
    rcases (mem_reapEntries os m.children e).mp he with ⟨pc, hpc, hos, hesh⟩
    refine ⟨pc.2.cell, ?_, ?_⟩
    · have h1 := hI.child_spawned pc hpc
      have he1 : e.1 = pc.1 := by rw [hesh]
      rw [he1]
      exact List.mem_append.mpr (Or.inl h1)
    · have h2 : (pc.2.cell, e.2.2) ∈ reapWrites os m.children :=
        (mem_reapWrites os m.children pc.2.cell e.2.2).mpr ⟨pc, hpc, hos, rfl⟩
      exact List.mem_append.mpr (Or.inr (List.mem_append.mpr (Or.inl (hmemB _ _ h2))))
  · intro p path st hmem
    rcases List.mem_append.mp hmem with hA | hB
    · rcases hI.emit_cell p path st hA with ⟨c, h1, h2⟩
      exact ⟨c, List.mem_append.mpr (Or.inl h1), List.mem_append.mpr (Or.inl h2)⟩
    · rcases List.mem_append.mp hB with hm | hs
      · rcases List.mem_map.mp hm with ⟨cv, _, hcv⟩
        exact absurd hcv (by simp)
      · rw [List.mem_singleton] at hs
        exact absurd hs (by simp)
  · intro c v hmem
    rcases List.mem_append.mp hmem with hA | hB
    · have hold := hI.wrote_read c v hA
      have hnotin : ¬ c ∈ (reapWrites os m.children).map Prod.fst := by
        intro hin
        have := hkey_unset c hin
        rw [hold.1] at this
        exact Option.noConfusion this
      constructor
      · show applyWrites m.cells (reapWrites os m.children) c = some v
        rw [applyWrites_notin _ _ _ hnotin]
        exact hold.1
      · exact hold.2
    · rcases List.mem_append.mp hB with hm | hs
      · rcases List.mem_map.mp hm with ⟨cv, hcv, heq⟩
        injection heq with hc hv
        constructor
        · show applyWrites m.cells (reapWrites os m.children) c = some v
          apply applyWrites_mem _ _ _ _ hws_nodup
          rw [← hc, ← hv]
          exact hcv
        · apply hkey_fresh
          rw [← hc]
          exact List.mem_map.mpr ⟨cv, hcv, rfl⟩
      · rw [List.mem_singleton] at hs
        exact absurd hs (by simp)
  · intro c v hcell
    have hcell9 : applyWrites m.cells (reapWrites os m.children) c = some v := hcell
    rcases applyWrites_cases _ _ _ _ hcell9 with hm | hold
    · exact List.mem_append.mpr (Or.inr (List.mem_append.mpr (Or.inl (hmemB _ _ hm))))
    · exact List.mem_append.mpr (Or.inl (hI.read_wrote c v hold))
  · rw [writtenCells_append, writtenCells_reapActs, List.nodup_append]
    refine ⟨hI.wrote_nodup, hws_nodup, ?_⟩
    intro c hcA
    rcases (mem_writtenCells c A).mp hcA with ⟨v, hv⟩
    intro hcB
    have h1 := (hI.wrote_read c v hv).1
    have h2 := hkey_unset c hcB
    rw [h1] at h2
    exact Option.noConfusion h2

theorem neutral_of_forall (acts : List Action)
    (h : ∀ a ∈ acts, actionNeutral a = true) : NeutralActs acts := by
  intro a ha
  have hn := h a ha
  refine ⟨?_, ?_, ?_⟩
  · intro p c heq
    rw [heq] at hn
    exact Bool.noConfusion hn
  · intro p path st heq
    rw [heq] at hn
    exact Bool.noConfusion hn
  · intro c v heq
    rw [heq] at hn
    exact Bool.noConfusion hn

/-- One pump loop iteration preserves the invariant (on panic the run
halts in the pre-state, which still satisfies it). -/
theorem step_preserves {R : Type} (m : Muxer) (A : List Action) (env : PumpEnv R)
    (hI : Inv m A) :
    Inv (stepMuxer m (m.step env)) (A ++ (m.step env).actsOf) := by
  cases hst : m.state with
  | Awaiting =>
    have hwb : m.wait_buffer = [] := hI.buf_state (by rw [hst]; simp)
    cases hpe : m.pending_events with
    | nil =>
      cases hpr : pollRetry env.polls with
      | none =>
        simp only [Muxer.step, hst, hpe, hpr, stepMuxer, StepOut.actsOf]
        exact hI.mono_neutral _ (neutral_of_forall _ (by simp [actionNeutral]))
      | some batch =>
        simp only [Muxer.step, hst, hpe, hpr, stepMuxer, StepOut.actsOf]
        exact (hI.update_state MuxState.Awaiting m.fds batch.reverse
          (fun _ => hwb)).mono_neutral _ (neutral_of_forall _ (by simp [actionNeutral]))
    | cons tok rest =>
      rcases hsr : slabRemoveAt m.fds tok with ⟨osrc, fds9⟩
      cases osrc with
      | none =>
        simp only [Muxer.step, hst, hpe, hsr, stepMuxer, StepOut.actsOf]
        exact hI.mono_neutral _ (neutral_of_forall _ (by simp))
      | some src =>
        cases src with
        | ReadableChild c =>
          simp only [Muxer.step, hst, hpe, hsr, stepMuxer, StepOut.actsOf]
          exact (hI.update_state (MuxState.DrainingChildOut c) fds9 rest
            (fun _ => hwb)).mono_neutral _ (neutral_of_forall _ (by simp))
        | ReceivedSignal s =>
          simp only [Muxer.step, hst, hpe, hsr, stepMuxer, StepOut.actsOf]
          exact (hI.update_state (MuxState.DrainingSignals s) fds9 rest
            (fun _ => hwb)).mono_neutral _ (neutral_of_forall _ (by simp))
        | ChildTerminated =>
          cases hp : env.sigchld_pending with
          | false =>
            simp only [Muxer.step, hst, hpe, hsr, hp, stepMuxer, StepOut.actsOf,
              ChildTerminationSource.handle_event, Bool.false_eq_true, if_false]
            exact (hI.update_state MuxState.DrainingChildTerminated
              (slabInsert fds9 EventSource.ChildTerminated) rest
              (fun h => absurd rfl h)).mono_neutral _
              (neutral_of_forall _ (by simp [actionNeutral]))
          | true =>
            simp only [Muxer.step, hst, hpe, hsr, hp, stepMuxer, StepOut.actsOf,
              handle_event_true, hwb]
            exact hI.reap hwb env.os_exit
              (slabInsert fds9 EventSource.ChildTerminated) rest (slabVacantKey fds9)
  | DrainingChildTerminated =>
    cases hwb : m.wait_buffer with
    | nil =>
      simp only [Muxer.step, hst, hwb, stepMuxer, StepOut.actsOf]
      have h0 := (hI.update_state MuxState.Awaiting m.fds m.pending_events
        (fun _ => hwb)).mono_neutral []
        (fun a ha => absurd ha (List.not_mem_nil a))
      rw [hwb] at h0
      exact h0
    | cons e rest =>
      rcases e with ⟨pid, path, st0⟩
      cases hcb : env.cb (Event.ChildTerminated pid path st0) with
      | none =>
        simp only [Muxer.step, hst, hwb, hcb, stepMuxer, StepOut.actsOf]
        have hpop := hI.popTermination pid path st0 rest hwb
        rw [hst] at hpop
        exact hpop
      | some r =>
        simp only [Muxer.step, hst, hwb, hcb, stepMuxer, StepOut.actsOf]
        have hpop := hI.popTermination pid path st0 rest hwb
        rw [hst] at hpop
        exact hpop
  | DrainingChildOut c =>
    have hwb : m.wait_buffer = [] := hI.buf_state (by rw [hst]; simp)
    rcases hrl : read_line c.fd c.buf with ⟨fd9, rest9⟩
    rcases rest9 with ⟨b9, res⟩
    cases res with
    | ok n =>
      cases n with
      | zero =>
        cases hcb : env.cb (Event.FdClosed c.pid c.prog_path c.tag) with
        | none =>
          simp only [Muxer.step, hst, hrl, Muxer.drainChildOut, hcb, stepMuxer,
            StepOut.actsOf]
          exact (hI.update_state MuxState.Awaiting m.fds m.pending_events
            (fun _ => hwb)).mono_neutral _ (neutral_of_forall _ (by simp [actionNeutral]))
        | some r =>
          simp only [Muxer.step, hst, hrl, Muxer.drainChildOut, hcb, stepMuxer,
            StepOut.actsOf]
          exact (hI.update_state MuxState.Awaiting m.fds m.pending_events
            (fun _ => hwb)).mono_neutral _ (neutral_of_forall _ (by simp [actionNeutral]))
      | succ k =>
        cases hcb : env.cb (Event.ChildWrote c.pid c.prog_path c.tag b9) with
        | none =>
          simp only [Muxer.step, hst, hrl, Muxer.drainChildOut, hcb, stepMuxer,
            StepOut.actsOf]
          exact (hI.update_state (MuxState.DrainingChildOut { c with fd := fd9, buf := [] })
            m.fds m.pending_events (fun _ => hwb)).mono_neutral _
            (neutral_of_forall _ (by simp [actionNeutral]))
        | some r =>
          simp only [Muxer.step, hst, hrl, Muxer.drainChildOut, hcb, stepMuxer,
            StepOut.actsOf]
          exact (hI.update_state (MuxState.DrainingChildOut { c with fd := fd9, buf := [] })
            m.fds m.pending_events (fun _ => hwb)).mono_neutral _
            (neutral_of_forall _ (by simp [actionNeutral]))
    | interrupted =>
      simp only [Muxer.step, hst, hrl, Muxer.drainChildOut, stepMuxer, StepOut.actsOf]
      exact (hI.update_state (MuxState.DrainingChildOut { c with fd := fd9, buf := b9 })
        m.fds m.pending_events (fun _ => hwb)).mono_neutral _ (neutral_of_forall _ (by simp))
    | wouldBlock =>
      simp only [Muxer.step, hst, hrl, Muxer.drainChildOut, stepMuxer, StepOut.actsOf]
      exact (hI.update_state MuxState.Awaiting
        (slabInsert m.fds (EventSource.ReadableChild { c with fd := fd9, buf := b9 }))
        m.pending_events (fun _ => hwb)).mono_neutral _
        (neutral_of_forall _ (by simp [actionNeutral]))
    | fatalErr =>
      simp only [Muxer.step, hst, hrl, Muxer.drainChildOut, stepMuxer, StepOut.actsOf]
      exact hI.mono_neutral _ (neutral_of_forall _ (by simp))
  | DrainingSignals s =>
    have hwb : m.wait_buffer = [] := hI.buf_state (by rw [hst]; simp)
    rcases hsn : SignalSource.next env.sig_pending s with _ | ⟨s9, es⟩
    · simp only [Muxer.step, hst, hsn, stepMuxer, StepOut.actsOf]
      exact hI.mono_neutral _ (neutral_of_forall _ (by simp))
    · cases es with
      | Emit sig =>
        cases hcb : env.cb (Event.SignalReceived sig) with
        | none =>
          simp only [Muxer.step, hst, hsn, hcb, stepMuxer, StepOut.actsOf]
          exact (hI.update_state (MuxState.DrainingSignals s9) m.fds m.pending_events
            (fun _ => hwb)).mono_neutral _ (neutral_of_forall _ (by simp [actionNeutral]))
        | some r =>
          simp only [Muxer.step, hst, hsn, hcb, stepMuxer, StepOut.actsOf]
          exact (hI.update_state (MuxState.DrainingSignals s9) m.fds m.pending_events
            (fun _ => hwb)).mono_neutral _ (neutral_of_forall _ (by simp [actionNeutral]))
      | Drained i =>
        cases i with
        | Reregister =>
          simp only [Muxer.step, hst, hsn, stepMuxer, StepOut.actsOf]
          exact (hI.update_state MuxState.Awaiting
            (slabInsert m.fds (EventSource.ReceivedSignal s9)) m.pending_events
            (fun _ => hwb)).mono_neutral _ (neutral_of_forall _ (by simp [actionNeutral]))
        | Deregister =>
          simp only [Muxer.step, hst, hsn, stepMuxer, StepOut.actsOf]
          exact (hI.update_state MuxState.Awaiting m.fds m.pending_events
            (fun _ => hwb)).mono_neutral _ (neutral_of_forall _ (by simp [actionNeutral]))

theorem eraseKey_eq_self (l : List (Pid × MuxerChild)) (p : Pid)
    (h : childFor p l = 0) : eraseKey l p = l := by
  apply List.filter_eq_self.mpr
  intro pc hpc
  have hnot := List.countP_eq_zero.mp h pc hpc
  simp only [beq_iff_eq] at hnot
  simp [hnot]

theorem not_mem_keys (l : List (Pid × MuxerChild)) (p : Pid)
    (h : childFor p l = 0) : ¬ p ∈ l.map Prod.fst := by
  intro hmem
  rcases List.mem_map.mp hmem with ⟨pc, hpc, hkey⟩
  have hnot := List.countP_eq_zero.mp h pc hpc
  rw [hkey] at hnot
  simp at hnot

/-- A successful spawn — fresh cell, fresh pid, record inserted —
preserves the invariant. -/
theorem Inv.spawnChild {m : Muxer} {A : List Action} (hI : Inv m A) (p : Pid)
    (path : Str) (hfresh : spawnedFor p A = 0) (fds9 : List (Option EventSource))
    (B : List Action) (hB : NeutralActs B) :
    Inv
      { m with
        children := mapInsert m.children p { prog_path := path, cell := m.nextCell }
        fds := fds9
        nextCell := m.nextCell + 1 }
      (A ++ (B ++ [Action.spawnedChild p m.nextCell])) := by
  have hzero : childFor p m.children = 0 ∧ bufFor p m.wait_buffer = 0 ∧
      emitsFor p A = 0 := by
    have hc := hI.conserve p
    rw [hfresh] at hc
    omega
  have herase : eraseKey m.children p = m.children := eraseKey_eq_self _ p hzero.1
  have hins : mapInsert m.children p { prog_path := path, cell := m.nextCell } =
      m.children ++ [(p, { prog_path := path, cell := m.nextCell })] := by
    rw [mapInsert, herase]
  have hmemA9 : ∀ a : Action,
      a ∈ A ++ (B ++ [Action.spawnedChild p m.nextCell]) →
      a ∈ A ∨ a ∈ B ∨ a = Action.spawnedChild p m.nextCell := by
    intro a ha
    rcases List.mem_append.mp ha with h | h
    · exact Or.inl h
    · rcases List.mem_append.mp h with h | h
      · exact Or.inr (Or.inl h)
      · exact Or.inr (Or.inr (List.mem_singleton.mp h))
  have hcell_unset : m.cells m.nextCell = none := by
    cases hcv : m.cells m.nextCell with
    | none => rfl
    | some v =>
      have hw := hI.wrote_read _ _ (hI.read_wrote _ _ hcv)
      omega
  refine
    { buf_state := hI.buf_state
      keys_nodup := ?_
      cells_nodup := ?_
      cell_fresh := ?_
      cell_unset := ?_
      child_spawned := ?_
      conserve := ?_
      buf_cell := ?_
      emit_cell := ?_
      wrote_read := ?_
      read_wrote := ?_
      wrote_nodup := ?_ }
  · dsimp only
    rw [hins, List.map_append, List.nodup_append]
    refine ⟨hI.keys_nodup, by simp, ?_⟩
    intro q hq
    simp only [List.map_cons, List.map_nil, List.mem_singleton]
    intro hqp
    rw [hqp] at hq
    exact not_mem_keys m.children p hzero.1 hq
  · dsimp only
    rw [hins, List.map_append, List.nodup_append]
    refine ⟨hI.cells_nodup, by simp, ?_⟩
    intro c hc
    simp only [List.map_cons, List.map_nil, List.mem_singleton]
    intro hceq
    rcases List.mem_map.mp hc with ⟨pc, hpc, hcell⟩
    have := hI.cell_fresh pc hpc
    rw [hcell, hceq] at this
    omega
  · intro pc hpc
    dsimp only at hpc ⊢
    rw [hins] at hpc
    rcases List.mem_append.mp hpc with h | h
    · exact Nat.lt_succ_of_lt (hI.cell_fresh pc h)
    · rw [List.mem_singleton.mp h]
      exact Nat.lt_succ_self _
  · intro pc hpc
    dsimp only at hpc ⊢
    rw [hins] at hpc
    rcases List.mem_append.mp hpc with h | h
    · exact hI.cell_unset pc h
    · rw [List.mem_singleton.mp h]
      exact hcell_unset
  · intro pc hpc
    dsimp only at hpc ⊢
    rw [hins] at hpc
    rcases List.mem_append.mp hpc with h | h
    · exact List.mem_append.mpr (Or.inl (hI.child_spawned pc h))
    · rw [List.mem_singleton.mp h]
      exact List.mem_append.mpr (Or.inr (List.mem_append.mpr (Or.inr
        (List.mem_singleton.mpr rfl))))
  · intro q
    dsimp only
    rw [hins]
    have hchild : childFor q (m.children ++
        [(p, { prog_path := path, cell := m.nextCell })]) =
        childFor q m.children + (if p = q then 1 else 0) := by
      rw [childFor, List.countP_append]
      simp only [childFor, List.countP_cons, List.countP_nil]
      by_cases hpq : p = q <;> simp [hpq, beq_iff_eq]
    have hsp : spawnedFor q (A ++ (B ++ [Action.spawnedChild p m.nextCell])) =
        spawnedFor q A + (if p = q then 1 else 0) := by
      rw [spawnedFor_append, spawnedFor_append, spawnedFor_zero_of_neutral q B hB]
      simp only [spawnedFor, List.countP_cons, List.countP_nil, isSpawnOf]
      by_cases hpq : p = q <;> simp [hpq, beq_iff_eq]
    have hem : emitsFor q (A ++ (B ++ [Action.spawnedChild p m.nextCell])) =
        emitsFor q A := by
      rw [emitsFor_append, emitsFor_append, emitsFor_zero_of_neutral q B hB]
      simp [emitsFor, List.countP_cons, isTermEmitOf]
    rw [hchild, hsp, hem]
    have := hI.conserve q
    omega
  · intro e he
    dsimp only at he
    rcases hI.buf_cell e he with ⟨c, h1, h2⟩
    exact ⟨c, List.mem_append.mpr (Or.inl h1), List.mem_append.mpr (Or.inl h2)⟩
  · intro q path9 st hmem
    rcases hmemA9 _ hmem with h | h | h
    · rcases hI.emit_cell q path9 st h with ⟨c, h1, h2⟩
      exact ⟨c, List.mem_append.mpr (Or.inl h1), List.mem_append.mpr (Or.inl h2)⟩
    · exact absurd rfl ((hB _ h).2.1 q path9 st)
    · exact absurd h (by simp)
  · intro c v hmem
    dsimp only
    rcases hmemA9 _ hmem with h | h | h
    · exact ⟨(hI.wrote_read c v h).1, Nat.lt_succ_of_lt (hI.wrote_read c v h).2⟩
    · exact absurd rfl ((hB _ h).2.2 c v)
    · exact absurd h (by simp)
  · intro c v hcv
    dsimp only at hcv
    exact List.mem_append.mpr (Or.inl (hI.read_wrote c v hcv))
  · rw [writtenCells_append, writtenCells_append, writtenCells_nil_of_neutral B hB]
    have h0 : writtenCells [Action.spawnedChild p m.nextCell] = [] := rfl
    rw [h0]
    simp only [List.append_nil, List.nil_append]
    exact hI.wrote_nodup

/-- A `spawn` call preserves the invariant, provided the launched pid
(if any) was never successfully spawned before in the trace. -/
theorem spawn_preserves (m : Muxer) (A : List Action) (env : SpawnEnv) (hI : Inv m A)
    (hfresh : ∀ p, env.spawn_pid = some p → spawnedFor p A = 0) :
    Inv (m.spawn env).1 (A ++ (m.spawn env).2.2) := by
  cases henv : env.spawn_pid with
  | none =>
    simp only [Muxer.spawn, henv]
    exact hI.mono_neutral _ (neutral_of_forall _ (by simp [actionNeutral]))
  | some p =>
    have hf := hfresh p henv
    cases hso : env.has_stdout with
    | false =>
      cases hse : env.has_stderr with
      | false =>
        simp [Muxer.spawn, henv, hso, hse]
        exact hI.spawnChild p env.prog_path hf m.fds []
          (fun a ha => absurd ha (List.not_mem_nil a))
      | true =>
        cases hrse : env.reg_stderr_ok with
        | false =>
          simp [Muxer.spawn, henv, hso, hse, hrse]
          apply hI.bump m.fds (m.nextCell + 1) (Nat.le_succ _)
          exact neutral_of_forall _ (by simp [actionNeutral])
        | true =>
          simp [Muxer.spawn, henv, hso, hse, hrse]
          have hsc := hI.spawnChild p env.prog_path hf
            (slabInsert m.fds (EventSource.ReadableChild
              (ChildOut.from_pipe p env.prog_path FdTag.Stderr env.stderr_script)))
            [Action.registered (slabVacantKey m.fds)]
            (neutral_of_forall _ (by simp [actionNeutral]))
          simpa using hsc
    | true =>
      cases hrso : env.reg_stdout_ok with
      | false =>
        simp [Muxer.spawn, henv, hso, hrso]
        apply hI.bump m.fds (m.nextCell + 1) (Nat.le_succ _)
        exact neutral_of_forall _ (by simp [actionNeutral])
      | true =>
        cases hse : env.has_stderr with
        | false =>
          simp [Muxer.spawn, henv, hso, hrso, hse]
          have hsc := hI.spawnChild p env.prog_path hf
            (slabInsert m.fds (EventSource.ReadableChild
              (ChildOut.from_pipe p env.prog_path FdTag.Stdout env.stdout_script)))
            [Action.registered (slabVacantKey m.fds)]
            (neutral_of_forall _ (by simp [actionNeutral]))
          simpa using hsc
        | true =>
          cases hrse : env.reg_stderr_ok with
          | false =>
            simp [Muxer.spawn, henv, hso, hrso, hse, hrse]
            apply hI.bump _ (m.nextCell + 1) (Nat.le_succ _)
            exact neutral_of_forall _ (by simp [actionNeutral])
          | true =>
            simp [Muxer.spawn, henv, hso, hrso, hse, hrse]
            have hsc := hI.spawnChild p env.prog_path hf
              (slabInsert
                (slabInsert m.fds (EventSource.ReadableChild
                  (ChildOut.from_pipe p env.prog_path FdTag.Stdout env.stdout_script)))
                (EventSource.ReadableChild
                  (ChildOut.from_pipe p env.prog_path FdTag.Stderr env.stderr_script)))
              [Action.registered (slabVacantKey m.fds),
               Action.registered (slabVacantKey (slabInsert m.fds
                 (EventSource.ReadableChild
                   (ChildOut.from_pipe p env.prog_path FdTag.Stdout env.stdout_script))))]
              (neutral_of_forall _ (by simp [actionNeutral]))
            simpa using hsc

/-- A pump iteration records no spawn action. -/
theorem step_acts_no_spawn {R : Type} (m : Muxer) (env : PumpEnv R) (q : Pid) :
    spawnedFor q (m.step env).actsOf = 0 := by
  cases hst : m.state with
  | Awaiting =>
    cases hpe : m.pending_events with
    | nil =>
      cases hpr : pollRetry env.polls <;>
        simp [Muxer.step, hst, hpe, hpr, StepOut.actsOf, spawnedFor,
          List.countP_cons, isSpawnOf]
    | cons tok rest =>
      rcases hsr : slabRemoveAt m.fds tok with ⟨osrc, fds9⟩
      cases osrc with
      | none => simp [Muxer.step, hst, hpe, hsr, StepOut.actsOf, spawnedFor]
      | some src =>
        cases src with
        | ReadableChild c =>
          simp [Muxer.step, hst, hpe, hsr, StepOut.actsOf, spawnedFor]
        | ReceivedSignal s =>
          simp [Muxer.step, hst, hpe, hsr, StepOut.actsOf, spawnedFor]
        | ChildTerminated =>
          cases hp : env.sigchld_pending with
          | false =>
            simp [Muxer.step, hst, hpe, hsr, hp, StepOut.actsOf,
              ChildTerminationSource.handle_event, spawnedFor, List.countP_cons,
              isSpawnOf]
          | true =>
            simp only [Muxer.step, hst, hpe, hsr, hp, StepOut.actsOf,
              handle_event_true]
            exact spawnedFor_reapActs q _ _
  | DrainingChildTerminated =>
    cases hwb : m.wait_buffer with
    | nil => simp [Muxer.step, hst, hwb, StepOut.actsOf, spawnedFor]
    | cons e rest =>
      rcases e with ⟨pid, path, st0⟩
      cases hcb : env.cb (Event.ChildTerminated pid path st0) <;>
        simp [Muxer.step, hst, hwb, hcb, StepOut.actsOf, spawnedFor,
          List.countP_cons, isSpawnOf]
  | DrainingChildOut c =>
    rcases hrl : read_line c.fd c.buf with ⟨fd9, rest9⟩
    rcases rest9 with ⟨b9, res⟩
    cases res with
    | ok n =>
      cases n with
      | zero =>
        cases hcb : env.cb (Event.FdClosed c.pid c.prog_path c.tag) <;>
          simp [Muxer.step, hst, hrl, Muxer.drainChildOut, hcb, StepOut.actsOf,
            spawnedFor, List.countP_cons, isSpawnOf]
      | succ k =>
        cases hcb : env.cb (Event.ChildWrote c.pid c.prog_path c.tag b9) <;>
          simp [Muxer.step, hst, hrl, Muxer.drainChildOut, hcb, StepOut.actsOf,
            spawnedFor, List.countP_cons, isSpawnOf]
    | wouldBlock =>
      simp [Muxer.step, hst, hrl, Muxer.drainChildOut, StepOut.actsOf, spawnedFor,
        List.countP_cons, isSpawnOf]
    | interrupted =>
      simp [Muxer.step, hst, hrl, Muxer.drainChildOut, StepOut.actsOf, spawnedFor]
    | fatalErr =>
      simp [Muxer.step, hst, hrl, Muxer.drainChildOut, StepOut.actsOf, spawnedFor]
  | DrainingSignals s =>
    rcases hsn : SignalSource.next env.sig_pending s with _ | ⟨s9, es⟩
    · simp [Muxer.step, hst, hsn, StepOut.actsOf, spawnedFor]
    · cases es with
      | Emit sig =>
        cases hcb : env.cb (Event.SignalReceived sig) <;>
          simp [Muxer.step, hst, hsn, hcb, StepOut.actsOf, spawnedFor,
            List.countP_cons, isSpawnOf]
      | Drained i =>
        cases i <;>
          simp [Muxer.step, hst, hsn, StepOut.actsOf, spawnedFor,
            List.countP_cons, isSpawnOf]

/-- The spawn actions of one `spawn` call: none for a pid other than the
launched one, at most one in total, and none when the launch fails. -/
theorem spawn_acts_le (m : Muxer) (env : SpawnEnv) (q : Pid) :
    (env.spawn_pid = none → spawnedFor q (m.spawn env).2.2 = 0) ∧
    (∀ p, env.spawn_pid = some p → p ≠ q → spawnedFor q (m.spawn env).2.2 = 0) ∧
    spawnedFor q (m.spawn env).2.2 ≤ 1 := by
  cases henv : env.spawn_pid with
  | none =>
    simp [Muxer.spawn, henv, spawnedFor, List.countP_cons, isSpawnOf]
  | some p =>
    have hle : spawnedFor q (m.spawn env).2.2 ≤ (if p = q then 1 else 0) := by
      by_cases hpq : p = q <;>
        cases hso : env.has_stdout <;> cases hrso : env.reg_stdout_ok <;>
        cases hse : env.has_stderr <;> cases hrse : env.reg_stderr_ok <;>
        simp [Muxer.spawn, henv, hso, hrso, hse, hrse, spawnedFor,
          List.countP_cons, isSpawnOf, hpq, beq_iff_eq]
    refine ⟨fun h => Option.noConfusion h, ?_, ?_⟩
    · intro p9 hp9 hne
      have hpp : p = p9 := Option.some.inj hp9
      rw [hpp, if_neg hne] at hle
      omega
    · by_cases hpq : p = q
      · rw [if_pos hpq] at hle
        exact hle
      · rw [if_neg hpq] at hle
        omega

/-- The invariant holds at every point of every execution whose spawned
pids are distinct. -/
theorem runFrom_inv {R : Type} :
    ∀ (T : List (MStep R)) (m : Muxer) (A : List Action), Inv m A →
    (spawnPids T).Nodup → (∀ p ∈ spawnPids T, spawnedFor p A = 0) →
    Inv (runFrom m A T).1 (runFrom m A T).2
  | [], _, _, hI, _, _ => hI
  | MStep.pumpStep env :: rest, m, A, hI, hnd, hz => by
    have hstep := step_preserves m A env hI
    have hns := fun q => step_acts_no_spawn m env q
    cases ho : m.step env with
    | cont m9 acts =>
      rw [ho] at hstep hns
      simp only [stepMuxer, StepOut.actsOf] at hstep hns
      simp only [runFrom, ho]
      refine runFrom_inv rest m9 (A ++ acts) hstep hnd ?_
      intro p hp
      rw [spawnedFor_append, hz p hp, hns p]
    | ret m9 r acts =>
      rw [ho] at hstep hns
      simp only [stepMuxer, StepOut.actsOf] at hstep hns
      simp only [runFrom, ho]
      refine runFrom_inv rest m9 (A ++ acts) hstep hnd ?_
      intro p hp
      rw [spawnedFor_append, hz p hp, hns p]
    | fatalStop acts =>
      rw [ho] at hstep
      simp only [stepMuxer, StepOut.actsOf] at hstep
      simp only [runFrom, ho]
      exact hstep
  | MStep.spawnStep env :: rest, m, A, hI, hnd, hz => by
    have hfresh : ∀ p, env.spawn_pid = some p → spawnedFor p A = 0 := by
      intro p hp
      apply hz
      show p ∈ spawnPids (MStep.spawnStep env :: rest)
      simp only [spawnPids, hp]
      exact List.mem_cons_self _ _
    have hsp := spawn_preserves m A env hI hfresh
    simp only [runFrom]
    refine runFrom_inv rest _ _ hsp ?_ ?_
    · cases hp : env.spawn_pid with
      | none =>
        have : spawnPids (MStep.spawnStep env :: rest) = spawnPids (R := R) rest := by
          simp [spawnPids, hp]
        rw [this] at hnd
        exact hnd
      | some p =>
        have : spawnPids (MStep.spawnStep env :: rest) =
            p :: spawnPids (R := R) rest := by
          simp [spawnPids, hp]
        rw [this] at hnd
        exact (List.nodup_cons.mp hnd).2
    · intro q hq
      rw [spawnedFor_append]
      have hzq : spawnedFor q A = 0 := by
        apply hz
        show q ∈ spawnPids (MStep.spawnStep env :: rest)
        cases hp : env.spawn_pid with
        | none => simpa [spawnPids, hp] using hq
        | some p =>
          simp only [spawnPids, hp]
          exact List.mem_cons_of_mem _ hq
      rw [hzq]
      cases hp : env.spawn_pid with
      | none => rw [(spawn_acts_le m env q).1 hp]
      | some p =>
        have hpq : p ≠ q := by
          intro heq
          have : spawnPids (MStep.spawnStep env :: rest) =
              p :: spawnPids (R := R) rest := by
            simp [spawnPids, hp]
          rw [this] at hnd
          exact (List.nodup_cons.mp hnd).1 (heq ▸ hq)
        rw [(spawn_acts_le m env q).2.1 p hp hpq]

/-- Over any execution, a pid gains at most as many spawn actions as its
occurrences among the trace's launched pids. -/
theorem runFrom_spawnedFor {R : Type} :
    ∀ (T : List (MStep R)) (m : Muxer) (A : List Action) (q : Pid),
    spawnedFor q (runFrom m A T).2 ≤ spawnedFor q A + (spawnPids T).count q
  | [], _, _, _ => Nat.le_add_right _ _
  | MStep.pumpStep env :: rest, m, A, q => by
    have hns := step_acts_no_spawn m env q
    cases ho : m.step env with
    | cont m9 acts =>
      rw [ho] at hns
      simp only [StepOut.actsOf] at hns
      simp only [runFrom, ho]
      have := runFrom_spawnedFor rest m9 (A ++ acts) q
      rw [spawnedFor_append, hns, Nat.add_zero] at this
      simpa [spawnPids] using this
    | ret m9 r acts =>
      rw [ho] at hns
      simp only [StepOut.actsOf] at hns
      simp only [runFrom, ho]
      have := runFrom_spawnedFor rest m9 (A ++ acts) q
      rw [spawnedFor_append, hns, Nat.add_zero] at this
      simpa [spawnPids] using this
    | fatalStop acts =>
      rw [ho] at hns
      simp only [StepOut.actsOf] at hns
      simp only [runFrom, ho]
      rw [spawnedFor_append, hns, Nat.add_zero]
      exact Nat.le_add_right _ _
  | MStep.spawnStep env :: rest, m, A, q => by
    simp only [runFrom]
    have hrec := runFrom_spawnedFor rest (m.spawn env).1 (A ++ (m.spawn env).2.2) q
    rw [spawnedFor_append] at hrec
    cases hp : env.spawn_pid with
    | none =>
      rw [(spawn_acts_le m env q).1 hp, Nat.add_zero] at hrec
      have hpp : spawnPids (MStep.spawnStep env :: rest) = spawnPids (R := R) rest := by
        simp [spawnPids, hp]
      rw [hpp]
      exact hrec
    | some p =>
      have hpp : spawnPids (MStep.spawnStep env :: rest) =
          p :: spawnPids (R := R) rest := by
        simp [spawnPids, hp]
      rw [hpp]
      by_cases hpq : p = q
      · have hle := (spawn_acts_le m env q).2.2
        subst hpq
        rw [List.count_cons_self]
        omega
      · rw [(spawn_acts_le m env q).2.1 p hp hpq, Nat.add_zero] at hrec
        rw [List.count_cons_of_ne (fun h => hpq h.symm)]
        exact hrec

/-- With at most one spawn action for a pid in the trace, the cells of
any two spawn actions for it agree. -/
theorem spawned_cell_unique :
    ∀ (A : List Action) (p : Pid) (c c9 : Nat),
    Action.spawnedChild p c ∈ A → Action.spawnedChild p c9 ∈ A →
    spawnedFor p A ≤ 1 → c = c9
  | [], _, _, _, h1, _, _ => absurd h1 (List.not_mem_nil _)
  | a :: A, p, c, c9, h1, h2, hle => by
    rw [spawnedFor, List.countP_cons] at hle
    rcases List.mem_cons.mp h1 with ha1 | h1t
    · rcases List.mem_cons.mp h2 with ha2 | h2t
      · rw [← ha2] at ha1
        simpa using ha1
      · rw [← ha1] at hle
        have hif : isSpawnOf p (Action.spawnedChild p c) = true := by simp [isSpawnOf]
        simp only [hif, if_true] at hle
        have hpos : 0 < List.countP (isSpawnOf p) A :=
          List.countP_pos_iff.mpr ⟨_, h2t, by simp [isSpawnOf]⟩
        omega
    · rcases List.mem_cons.mp h2 with ha2 | h2t
      · rw [← ha2] at hle
        have hif : isSpawnOf p (Action.spawnedChild p c9) = true := by simp [isSpawnOf]
        simp only [hif, if_true] at hle
        have hpos : 0 < List.countP (isSpawnOf p) A :=
          List.countP_pos_iff.mpr ⟨_, h1t, by simp [isSpawnOf]⟩
        omega
      · exact spawned_cell_unique A p c c9 h1t h2t (by rw [spawnedFor]; omega)

theorem runMuxer_inv {R : Type} (T : List (MStep R)) (hnd : (spawnPids T).Nodup) :
    Inv (runMuxer T).1 (runMuxer T).2 :=
  runFrom_inv T initMuxer [] initMuxer_inv hnd (fun _ _ => rfl)

theorem runMuxer_spawned_le {R : Type} (T : List (MStep R)) (p : Pid)
    (hnd : (spawnPids T).Nodup) : spawnedFor p (runMuxer T).2 ≤ 1 := by
  have h := runFrom_spawnedFor T initMuxer [] p
  have hc : (spawnPids T).count p ≤ 1 := List.nodup_iff_count_le_one.mp hnd p
  have h0 : spawnedFor p ([] : List Action) = 0 := rfl
  rw [runMuxer]
  omega

theorem mem_pids_iff (m : Muxer) (p : Pid) :
    p ∈ m.pids ↔ 0 < childFor p m.children := by
  simp only [Muxer.pids, List.mem_map, childFor]
  rw [List.countP_pos_iff]
  constructor
  · rintro ⟨pc, hpc, hkey⟩
    exact ⟨pc, hpc, by simp [hkey]⟩
  · rintro ⟨pc, hpc, hkey⟩
    exact ⟨pc, hpc, by simpa using hkey⟩

/-- C10: whenever the stored pump state is `Awaiting` — or any state
other than `DrainingChildTerminated`, including at construction and at
every return of pump that restores such a state — the termination
`wait_buffer` is empty.  Since the pump dispatches to `handle_event`
only from `Awaiting`, the reaper is always invoked with an empty buffer,
and then its removal loop removes from the children map exactly the
children it reaped in that invocation (those whose non-blocking wait
returned a status). -/
theorem C10_wait_buffer_empty (T : List (MStep Unit))
    (hnd : (spawnPids T).Nodup) (os : Pid → Option ExitStatus)
    (children : List (Pid × MuxerChild)) (cells : CellHeap)
    (hkeys : (children.map Prod.fst).Nodup) :
    ((runMuxer T).1.state ≠ MuxState.DrainingChildTerminated →
      (runMuxer T).1.wait_buffer = []) ∧
    (ChildTerminationSource.handle_event true os children cells []).children =
      children.filter (fun pc => (os pc.1).isNone) := by
  constructor
  · exact (runMuxer_inv T hnd).buf_state
  · rw [handle_event_true]
    exact removeReaped_reap_eq os children hkeys

/-- Witness for C10 at the empty trace and an empty children map. -/
theorem C10_witness :
    ((runMuxer ([] : List (MStep Unit))).1.state ≠ MuxState.DrainingChildTerminated →
      (runMuxer ([] : List (MStep Unit))).1.wait_buffer = []) ∧
    (ChildTerminationSource.handle_event true osNone [] (fun _ => none) []).children =
      List.filter (fun pc => (osNone pc.1).isNone) [] :=
  C10_wait_buffer_empty [] (by simp [spawnPids]) osNone [] (fun _ => none) (by simp)

/-- C2: over any execution whose spawned pids are distinct, at most one
`ChildTerminated` event is delivered per pid — counting also the entries
still buffered, so a pid is never pushed onto the termination buffer
twice; if the pid was spawned and is gone from the children map, then
exactly one termination for it has been collected (delivered or still
in the buffer, and a non-empty buffer is always in the
`DrainingChildTerminated` state, whose every further pump iteration pops
an entry, so each buffered termination is delivered exactly once as
pumping continues). -/
theorem C2_terminated_exactly_once (T : List (MStep Unit)) (p : Pid)
    (hnd : (spawnPids T).Nodup) :
    emitsFor p (runMuxer T).2 + bufFor p (runMuxer T).1.wait_buffer ≤ 1 ∧
    (spawnedFor p (runMuxer T).2 = 1 ∧ childFor p (runMuxer T).1.children = 0 →
      emitsFor p (runMuxer T).2 + bufFor p (runMuxer T).1.wait_buffer = 1) ∧
    ((runMuxer T).1.wait_buffer = [] ∨
      (runMuxer T).1.state = MuxState.DrainingChildTerminated) := by
  have hI := runMuxer_inv T hnd
  have hcons := hI.conserve p
  have hle := runMuxer_spawned_le T p hnd
  refine ⟨by omega, fun hh => ?_, ?_⟩
  · rcases hh with ⟨h1, h2⟩
    omega
  · by_cases h : (runMuxer T).1.state = MuxState.DrainingChildTerminated
    · exact Or.inr h
    · exact Or.inl (hI.buf_state h)

/-- Witness for C2 on a trace that spawns pid 5, reaps it and drains the
buffer. -/
theorem C2_witness :
    emitsFor 5 (runMuxer traceOneReaped).2 +
      bufFor 5 (runMuxer traceOneReaped).1.wait_buffer ≤ 1 ∧
    (spawnedFor 5 (runMuxer traceOneReaped).2 = 1 ∧
      childFor 5 (runMuxer traceOneReaped).1.children = 0 →
      emitsFor 5 (runMuxer traceOneReaped).2 +
        bufFor 5 (runMuxer traceOneReaped).1.wait_buffer = 1) ∧
    ((runMuxer traceOneReaped).1.wait_buffer = [] ∨
      (runMuxer traceOneReaped).1.state = MuxState.DrainingChildTerminated) :=
  C2_terminated_exactly_once traceOneReaped 5 (by decide)

/-- C3: over any execution whose spawned pids are distinct, each shared
exit-status cell is written at most once; and once a
`ChildTerminated{pid, exit_status}` event has been delivered, the
`ChildInfo` handle of that pid's spawn reads `some exit_status` from the
shared cell — the write is performed by the reaper before the event is
even buffered, so it is visible at the delivery point and ever after
(the theorem holds for every trace extending the delivery). -/
theorem C3_exit_cell (T : List (MStep Unit)) (info : ChildInfo) (path : Str)
    (st : ExitStatus) (hnd : (spawnPids T).Nodup)
    (hsp : Action.spawnedChild info.pid info.cell ∈ (runMuxer T).2)
    (hev : Action.emitted (Event.ChildTerminated info.pid path st) ∈ (runMuxer T).2) :
    (writtenCells (runMuxer T).2).Nodup ∧
    info.exit_status (runMuxer T).1.cells = some st := by
  have hI := runMuxer_inv T hnd
  refine ⟨hI.wrote_nodup, ?_⟩
  rcases hI.emit_cell info.pid path st hev with ⟨c, hc1, hc2⟩
  have hle := runMuxer_spawned_le T info.pid hnd
  have hcc : info.cell = c := spawned_cell_unique _ info.pid info.cell c hsp hc1 hle
  rw [ChildInfo.exit_status, hcc]
  exact (hI.wrote_read c st hc2).1

/-- Witness for C3 on the drained one-child trace. -/
theorem C3_witness :
    (writtenCells (runMuxer traceOneReaped).2).Nodup ∧
    ChildInfo.exit_status infoFive (runMuxer traceOneReaped).1.cells = some 0 :=
  C3_exit_cell traceOneReaped infoFive progA 0 (by decide) (by decide) (by decide)

/-- C4 amended: `pids()` containing a Pid still implies that no
`ChildTerminated` has been emitted for it, but the converse holds only
once the termination buffer is empty: a reaped child leaves `pids()`
when the reaper collects it, possibly before its `ChildTerminated` event
is delivered.  With an empty buffer, `pids()` contains a Pid exactly
when it was spawned and its termination has not been emitted. -/
theorem C4_pids_amended (T : List (MStep Unit)) (p : Pid)
    (hnd : (spawnPids T).Nodup) :
    (p ∈ Muxer.pids (runMuxer T).1 → emitsFor p (runMuxer T).2 = 0) ∧
    ((runMuxer T).1.wait_buffer = [] →
      (p ∈ Muxer.pids (runMuxer T).1 ↔
        spawnedFor p (runMuxer T).2 = 1 ∧ emitsFor p (runMuxer T).2 = 0)) := by
  have hI := runMuxer_inv T hnd
  have hcons := hI.conserve p
  have hle := runMuxer_spawned_le T p hnd
  constructor
  · intro h
    rw [mem_pids_iff] at h
    omega
  · intro hbuf
    have hb0 : bufFor p (runMuxer T).1.wait_buffer = 0 := by
      rw [hbuf]
      rfl
    rw [mem_pids_iff]
    constructor
    · intro h
      omega
    · rintro ⟨h1, h2⟩
      omega

/-- Witness for C4's amended claim on the drained one-child trace. -/
theorem C4_witness :
    (5 ∈ Muxer.pids (runMuxer traceOneReaped).1 →
      emitsFor 5 (runMuxer traceOneReaped).2 = 0) ∧
    ((runMuxer traceOneReaped).1.wait_buffer = [] →
      (5 ∈ Muxer.pids (runMuxer traceOneReaped).1 ↔
        spawnedFor 5 (runMuxer traceOneReaped).2 = 1 ∧
          emitsFor 5 (runMuxer traceOneReaped).2 = 0)) :=
  C4_pids_amended traceOneReaped 5 (by decide)

end PMux
